import Mathlib

/-! Crystal Rose authentication service.

A shallow embedding of `main.go`: the three validators, the session registry,
and the login / register / logout / middleware handlers, followed by the
properties proved about them.

Go strings are modelled by Lean `String` (well-formed Unicode text, which is
what the JSON body decoder hands to the handlers); `len(s)` is the UTF-8 byte
length and `range s` walks the code points.
-/

namespace CrystalRose

/-! ## Go standard library pieces used by the validators -/

/-- Go `unicode.IsSpace`: the Latin-1 space characters tab, newline, vertical tab,
form feed, carriage return, space, U+0085 and U+00A0, and beyond Latin-1 the
code points with the White_Space property. -/
def isSpace (c : Char) : Bool :=
  let n := c.toNat
  (9 ≤ n && n ≤ 13) || n == 0x20 || n == 0x85 || n == 0xA0 || n == 0x1680 ||
  (0x2000 ≤ n && n ≤ 0x200A) || n == 0x2028 || n == 0x2029 || n == 0x202F ||
  n == 0x205F || n == 0x3000

/-- Leading white space removed. -/
def trimLeft (cs : List Char) : List Char := cs.dropWhile isSpace

/-- Trailing white space removed. -/
def trimRight (cs : List Char) : List Char := (cs.reverse.dropWhile isSpace).reverse

/-- Go `strings.TrimSpace`: all leading and trailing white space removed. -/
def trimSpace (s : String) : String := ⟨trimRight (trimLeft s.data)⟩

/-- The Unicode tables of the Go `unicode` package that the program consults:
`unicode.IsLetter`, `unicode.IsDigit` and `unicode.ToLower`. The tables themselves
are not part of the repository, so they are taken as a parameter. -/
structure UnicodeTables where
  isLetter : Char → Bool
  isDigit : Char → Bool
  toLower : Char → Char

/-- What is known of the Go tables on the ASCII range: letters are a-z and A-Z,
digits are 0-9, and lower-casing shifts A-Z onto a-z and fixes the rest. -/
def UnicodeTables.AsciiExact (U : UnicodeTables) : Prop :=
  ∀ c : Char, c.toNat < 128 →
    U.isLetter c = c.isAlpha ∧ U.isDigit c = c.isDigit ∧ U.toLower c = c.toLower

/-- The tables cut down to ASCII: nothing beyond ASCII is a letter or a digit or
changes under lower-casing. -/
def asciiTables : UnicodeTables where
  isLetter := Char.isAlpha
  isDigit := Char.isDigit
  toLower := Char.toLower

/-- Go `strings.ToLower`: every code point mapped through `unicode.ToLower`. -/
def toLower (U : UnicodeTables) (s : String) : String := ⟨s.data.map U.toLower⟩

/-- Go `len(s)`: the number of bytes of the UTF-8 encoding. -/
def len (s : String) : Nat := s.utf8ByteSize

/-! ## Regular expressions

Patterns are translated into Mathlib regular expressions over `Char`, and
`MatchString` on an anchored pattern `^...$` is whole-string matching by
derivatives (`RegularExpression.rmatch`). -/

/-- The characters from `lo` to `hi`, both included, as in a class range `lo-hi`. -/
def charRange (lo hi : Char) : List Char :=
  (List.range (hi.toNat + 1 - lo.toNat)).map fun i => Char.ofNat (lo.toNat + i)

/-- A character class `[...]`: the alternation of its members. -/
def charClass (cs : List Char) : RegularExpression Char :=
  cs.foldr (fun c r => RegularExpression.char c + r) 0

/-- One or more repetitions, `r+`. -/
def rePlus (r : RegularExpression Char) : RegularExpression Char := r * r.star

/-- Two or more repetitions, `r{2,}`. -/
def reAtLeastTwo (r : RegularExpression Char) : RegularExpression Char := r * (r * r.star)

/-- The class `[a-zA-Z]`. -/
def letterChars : List Char := charRange 'a' 'z' ++ charRange 'A' 'Z'

/-- The class `[a-zA-Z0-9.\-]`. -/
def domainChars : List Char := letterChars ++ charRange '0' '9' ++ ['.', '-']

/-- The class `[a-zA-Z0-9._%+\-]`. -/
def localChars : List Char := letterChars ++ charRange '0' '9' ++ ['.', '_', '%', '+', '-']

/-- The pattern `^[a-zA-Z0-9._%+\-]+@[a-zA-Z0-9.\-]+\.[a-zA-Z]{2,}$` of `validateEmail`. -/
def emailRegex : RegularExpression Char :=
  rePlus (charClass localChars) * (RegularExpression.char '@' *
    (rePlus (charClass domainChars) * (RegularExpression.char '.' *
      reAtLeastTwo (charClass letterChars))))

/-- The class `\d` of Go regular expressions: the ASCII digits 0-9. -/
def isReDigit (c : Char) : Bool := '0'.toNat ≤ c.toNat && c.toNat ≤ '9'.toNat

/-- The call `regexp.MustCompile("\\d").FindAllString(s, -1)`: the successive
matches of a one-character class are the characters of the class, in order. -/
def findAllDigits (s : String) : List String :=
  s.data.filterMap fun c => if isReDigit c then some (String.singleton c) else none

/-! ## Validators -/

/-- Source `validateEmail`. -/
def validateEmail (email : String) : String :=
  let email := trimSpace email
  if email = "" then "Email is required"
  else if !(emailRegex.rmatch email.data) then "Please enter a valid email"
  else ""

/-- Source `validatePhone`. -/
def validatePhone (phone : String) : String :=
  let phone := trimSpace phone
  if phone = "" then "Phone is required"
  else
    let digits := findAllDigits phone
    if digits.length < 10 then "At least 10 digits needed"
    else if digits.length > 15 then "Too many digits"
    else ""

/-- The loop of `validatePassword`: one pass over the code points raising the two flags
`hasLetter` and `hasNumber`. -/
def scanPassword (U : UnicodeTables) (password : String) : Bool × Bool :=
  password.data.foldl
    (fun flags char =>
      let hasLetter := if U.isLetter char then true else flags.1
      let hasNumber := if U.isDigit char then true else flags.2
      (hasLetter, hasNumber))
    (false, false)

/-- Source `validatePassword`. -/
def validatePassword (U : UnicodeTables) (password : String) : String :=
  if password = "" then "Password is required"
  else if len password < 6 then "At least 6 characters"
  else if len password > 72 then "Too long"
  else
    let flags := scanPassword U password
    if !flags.1 then "Include a letter"
    else if !flags.2 then "Include a number"
    else ""

/-! ## Data model -/

/-- A clock reading as `time.Now()` presents it to `Format`: the civil date and time
of day with the nanosecond within the second. -/
structure Time where
  year : Nat
  month : Nat
  day : Nat
  hour : Nat
  minute : Nat
  second : Nat
  nano : Nat
  deriving DecidableEq, Repr

/-- Source `User`. -/
structure User where
  ID : Nat
  Email : String
  Phone : String
  Password : String
  CreatedAt : Time
  deriving DecidableEq, Repr

/-- Source `SessionStore`: the map from session token to user id. A Go map is
determined by what each key is bound to, so it is modelled by its lookup function. -/
abbrev SessionStore := String → Option Nat

/-- The map made by `make(map[string]uint)`. -/
def emptySessions : SessionStore := fun _ => none

/-- The assignment `m[k] = v`. -/
def mapSet (m : SessionStore) (k : String) (v : Nat) : SessionStore :=
  fun key => if key = k then some v else m key

/-- The call `delete(m, k)`. -/
def mapDelete (m : SessionStore) (k : String) : SessionStore :=
  fun key => if key = k then none else m key

/-- Why a database call failed. -/
inductive DBError where
  | duplicateKey
  | other
  deriving DecidableEq, Repr

deriving instance DecidableEq for Except

/-- The three GORM calls the handlers make, over a database state `σ`. The database
itself (GORM over SQLite) is not part of the repository.
`firstByEmail` is `db.Where("email = ?", e).First(&u)` and `firstByID` is
`db.First(&u, id)`, each `none` when the returned `Error` is not nil;
`create` is `db.Create(&u)` at the given clock reading, returning the new state and
the row with its key filled in, or the error. -/
structure Database (σ : Type) where
  firstByEmail : σ → String → Option User
  firstByID : σ → Nat → Option User
  create : σ → Time → User → Except DBError (σ × User)

/-- The two bcrypt calls, not part of the repository. `generateFromPassword` takes
the password and the random salt and is `none` when an error is returned;
`compareHashAndPassword hash password` is `true` when the returned error is nil. -/
structure Bcrypt where
  generateFromPassword : String → Nat → Option String
  compareHashAndPassword : String → String → Bool

/-- The package-level variables `db` and `sessions`. -/
structure State (σ : Type) where
  db : σ
  sessions : SessionStore

/-- Source `LoginRequest`. -/
structure LoginRequest where
  Email : String
  Password : String
  deriving DecidableEq, Repr

/-- Source `RegisterRequest`. -/
structure RegisterRequest where
  Email : String
  Phone : String
  Password : String
  deriving DecidableEq, Repr

/-- Source `APIResponse`. -/
structure APIResponse where
  Success : Bool
  Message : String
  Field : String
  deriving DecidableEq, Repr

/-- The fields of `fiber.Cookie` that the handlers set. -/
structure Cookie where
  Name : String
  Value : String
  HTTPOnly : Bool
  MaxAge : Int
  SameSite : String
  deriving DecidableEq, Repr

/-- What a handler does with the request: answer with a JSON body, redirect, or (the
middleware) store the user under `c.Locals("user")` and call `c.Next()`; the first
two may set a cookie. -/
inductive Reply where
  | json (body : APIResponse) (cookie : Option Cookie)
  | redirect (location : String) (cookie : Option Cookie)
  | next (user : User)
  deriving DecidableEq, Repr

/-- The clock readings and the salt a register request consumes. -/
structure RegisterEnv where
  salt : Nat
  insertTime : Time
  sessionTime : Time

/-! ## Session tokens -/

/-- Decimal digits of `n`, zero-padded on the left to `width`, as `Format` writes
its numeric fields. -/
def zeroPad (width n : Nat) : String :=
  let digits := Nat.repr n
  ⟨List.replicate (width - digits.length) '0'⟩ ++ digits

/-- The call `t.Format("20060102150405.000000000")`: four-digit year, two-digit month,
day, hour, minute and second, a dot, and nine digits of nanoseconds. -/
def formatStamp (t : Time) : String :=
  zeroPad 4 t.year ++ zeroPad 2 t.month ++ zeroPad 2 t.day ++ zeroPad 2 t.hour ++
    zeroPad 2 t.minute ++ zeroPad 2 t.second ++ "." ++ zeroPad 9 t.nano

/-- Source `generateSessionID`, at the clock reading `now`. -/
def generateSessionID (now : Time) : String := formatStamp now

/-- The cookie set on a successful login or registration. -/
def sessionCookie (sessionID : String) : Cookie :=
  ⟨"session_id", sessionID, true, 86400, "Lax"⟩

/-- The cookie set on logout. -/
def clearedCookie : Cookie := ⟨"session_id", "", true, -1, "Lax"⟩

/-! ## Handlers -/

variable {σ : Type}

/-- Source `handleLogin`. The body is `none` when `c.BodyParser` fails. -/
def handleLogin (D : Database σ) (B : Bcrypt) (U : UnicodeTables) (st : State σ)
    (body : Option LoginRequest) (now : Time) : Reply × State σ :=
  match body with
  | none => (.json ⟨false, "Invalid request format", "general"⟩ none, st)
  | some req =>
    let email := trimSpace (toLower U req.Email)
    if email = "" then
      (.json ⟨false, "Please enter your email", "email"⟩ none, st)
    else if req.Password = "" then
      (.json ⟨false, "Please enter your password", "password"⟩ none, st)
    else
      match D.firstByEmail st.db email with
      | none => (.json ⟨false, "No garden found with this email", "email"⟩ none, st)
      | some user =>
        if !(B.compareHashAndPassword user.Password req.Password) then
          (.json ⟨false, "Incorrect secret phrase", "password"⟩ none, st)
        else
          let sessionID := generateSessionID now
          (.json ⟨true, "Welcome to the Crystal Garden 🌹", ""⟩ (some (sessionCookie sessionID)),
            { st with sessions := mapSet st.sessions sessionID user.ID })

/-- Source `handleRegister`. The body is `none` when `c.BodyParser` fails. -/
def handleRegister (D : Database σ) (B : Bcrypt) (U : UnicodeTables) (st : State σ)
    (body : Option RegisterRequest) (env : RegisterEnv) : Reply × State σ :=
  match body with
  | none => (.json ⟨false, "Invalid request format", "general"⟩ none, st)
  | some req =>
    let email := trimSpace (toLower U req.Email)
    let phone := trimSpace req.Phone
    if validateEmail email ≠ "" then
      (.json ⟨false, validateEmail email, "email"⟩ none, st)
    else if validatePhone phone ≠ "" then
      (.json ⟨false, validatePhone phone, "phone"⟩ none, st)
    else if validatePassword U req.Password ≠ "" then
      (.json ⟨false, validatePassword U req.Password, "password"⟩ none, st)
    else
      match D.firstByEmail st.db email with
      | some _ => (.json ⟨false, "This garden already exists", "email"⟩ none, st)
      | none =>
        match B.generateFromPassword req.Password env.salt with
        | none => (.json ⟨false, "Failed to plant your rose", "general"⟩ none, st)
        | some hashedPassword =>
          let user : User := ⟨0, email, phone, hashedPassword, ⟨0, 0, 0, 0, 0, 0, 0⟩⟩
          match D.create st.db env.insertTime user with
          | .error _ => (.json ⟨false, "Failed to create garden", "general"⟩ none, st)
          | .ok (db, user) =>
            let sessionID := generateSessionID env.sessionTime
            (.json ⟨true, "Your crystal rose has bloomed 🌹", ""⟩ (some (sessionCookie sessionID)),
              { db := db, sessions := mapSet st.sessions sessionID user.ID })

/-- Source `authMiddleware`. `sessionID` is `c.Cookies("session_id")`, the empty
string when the request carries no such cookie. -/
def authMiddleware (D : Database σ) (st : State σ) (sessionID : String) : Reply × State σ :=
  if sessionID = "" then (.redirect "/login" none, st)
  else
    match st.sessions sessionID with
    | none => (.redirect "/login" none, st)
    | some userID =>
      match D.firstByID st.db userID with
      | none => (.redirect "/login" none, { st with sessions := mapDelete st.sessions sessionID })
      | some user => (.next user, st)

/-- Source `handleLogout`. `sessionID` is `c.Cookies("session_id")`. -/
def handleLogout (st : State σ) (sessionID : String) : Reply × State σ :=
  let st := if sessionID ≠ "" then { st with sessions := mapDelete st.sessions sessionID } else st
  (.redirect "/login" (some clearedCookie), st)

/-! ## Concrete collaborators

Instances of the database and hasher interfaces on which the handlers can be run. -/

/-- A table of users with its auto-increment counter. -/
structure MemDB where
  users : List User
  nextID : Nat
  deriving DecidableEq, Repr

/-- The `users` table in memory: lookups return the first row in key order, and
`create` enforces the unique index on `Email`, assigns the next key and stamps
`CreatedAt`. -/
def memStore : Database MemDB where
  firstByEmail db email := db.users.find? fun u => u.Email == email
  firstByID db id := db.users.find? fun u => u.ID == id
  create db t u :=
    if db.users.any (fun x => x.Email == u.Email) then .error .duplicateKey
    else
      let row : User := { u with ID := db.nextID, CreatedAt := t }
      .ok ({ users := db.users ++ [row], nextID := db.nextID + 1 }, row)

/-- The table as one request sees it while other requests write to it: the second
component holds rows that concurrent requests commit after this request has read and
before it inserts. Reads see the committed table; `create` runs after the
concurrent rows have landed. -/
def racingStore : Database (MemDB × List User) where
  firstByEmail s email := memStore.firstByEmail s.1 email
  firstByID s id := memStore.firstByID s.1 id
  create s t u :=
    let landed := s.2.foldl
      (fun db row => match memStore.create db t row with
        | .ok (db, _) => db
        | .error _ => db) s.1
    match memStore.create landed t u with
    | .ok (db, row) => .ok ((db, []), row)
    | .error e => .error e

/-- A stand-in for bcrypt on which the handlers can be evaluated: the hash is the salt
in decimal, a dollar sign, and the password; verification compares what follows the
first dollar sign. -/
def saltedHasher : Bcrypt where
  generateFromPassword password salt := some (Nat.repr salt ++ "$" ++ password)
  compareHashAndPassword hash password :=
    (hash.data.dropWhile (fun c => c != '$')).drop 1 == password.data

/-! ## Specification vocabulary and concrete states

Predicates in the words of the specification, the reachable states of the service, and
the concrete requests and states on which the handlers are evaluated. -/

/-- The body of a JSON reply, when the reply is one. -/
def Reply.body? : Reply → Option APIResponse
  | .json body _ => some body
  | _ => none

/-- The states the running service passes through: it starts with an empty registry,
every handler call moves it on, and the database may change out of band. -/
inductive Reachable (D : Database σ) (B : Bcrypt) (U : UnicodeTables) : State σ → Prop
  | start (db : σ) : Reachable D B U ⟨db, emptySessions⟩
  | login {st : State σ} (body : Option LoginRequest) (now : Time) :
      Reachable D B U st → Reachable D B U (handleLogin D B U st body now).2
  | register {st : State σ} (body : Option RegisterRequest) (env : RegisterEnv) :
      Reachable D B U st → Reachable D B U (handleRegister D B U st body env).2
  | middleware {st : State σ} (sessionID : String) :
      Reachable D B U st → Reachable D B U (authMiddleware D st sessionID).2
  | logout {st : State σ} (sessionID : String) :
      Reachable D B U st → Reachable D B U (handleLogout st sessionID).2
  | outOfBand {st : State σ} (db : σ) :
      Reachable D B U st → Reachable D B U ⟨db, st.sessions⟩

/-- The email a handler works with: lower-cased, then trimmed. -/
def normalizeEmail (U : UnicodeTables) (email : String) : String := trimSpace (toLower U email)

/-- A clock reading: 15 March 2024, 14:30:25.123456789. -/
def stamp : Time := ⟨2024, 3, 15, 14, 30, 25, 123456789⟩

/-- The account of rose@crystal.garden, password "rose2024" under `saltedHasher`. -/
def roseRow : User := ⟨1, "rose@crystal.garden", "+1 (214) 214-2024", "7$rose2024", stamp⟩

/-- The account of lily@crystal.garden, password "lily2024" under `saltedHasher`. -/
def lilyRow : User := ⟨2, "lily@crystal.garden", "+1 (214) 214-2025", "9$lily2024", stamp⟩

/-- Two accounts and nobody logged in. -/
def twoGardens : State MemDB := ⟨⟨[roseRow, lilyRow], 3⟩, emptySessions⟩

/-- The state after rose has logged in at the clock reading `stamp`. -/
def roseLoggedIn : State MemDB :=
  (handleLogin memStore saltedHasher asciiTables twoGardens
    (some ⟨"rose@crystal.garden", "rose2024"⟩) stamp).2

/-- An empty table and registry, with a concurrent request about to commit the account of
rose@crystal.garden. -/
def racingStart : State (MemDB × List User) := ⟨(⟨[], 1⟩, [roseRow]), emptySessions⟩

/-- The registration of the end-to-end scenario. -/
def roseRequest : RegisterRequest := ⟨"Rose@Crystal.Garden", "+1 (214) 214-2024", "rose2024"⟩

/-- The salt and clock readings of the concrete registrations. -/
def roseEnv : RegisterEnv := ⟨7, stamp, stamp⟩

/-- A later clock reading: 15 March 2024, 18:05:00.000000042. -/
def laterStamp : Time := ⟨2024, 3, 15, 18, 5, 0, 42⟩

/-- The clock reading of lily's login: 16 March 2024, 09:00:00.000000007. -/
def lilyStamp : Time := ⟨2024, 3, 16, 9, 0, 0, 7⟩

/-- Rose has logged in a second time, at `laterStamp`, and lily at `lilyStamp`. -/
def allLoggedIn : State MemDB :=
  (handleLogin memStore saltedHasher asciiTables
    (handleLogin memStore saltedHasher asciiTables roseLoggedIn
      (some ⟨"rose@crystal.garden", "rose2024"⟩) laterStamp).2
    (some ⟨"lily@crystal.garden", "lily2024"⟩) lilyStamp).2

/-- Rose holds two sessions and lily one, and the account of rose (id 1) has since been
deleted out of band. -/
def roseDeleted : State MemDB := ⟨⟨[lilyRow], 3⟩, allLoggedIn.sessions⟩

/-- The part of the store contract that registration relies on: a row that has been
created is found under its email. -/
def Database.FindsCreated (D : Database σ) : Prop :=
  ∀ (db : σ) (t : Time) (u : User) (db2 : σ) (row : User),
    D.create db t u = .ok (db2, row) → ∃ found, D.firstByEmail db2 u.Email = some found

/-- An empty table and nobody logged in. -/
def emptyGarden : State MemDB := ⟨⟨[], 1⟩, emptySessions⟩

/-- A second registration for the same garden, written differently. -/
def roseAgain : RegisterRequest := ⟨"  ROSE@crystal.GARDEN ", "214 214 2024 0", "petal2025"⟩

/-- An ASCII letter, a-z or A-Z. -/
def isAsciiLetter (c : Char) : Bool :=
  ('a'.toNat ≤ c.toNat && c.toNat ≤ 'z'.toNat) || ('A'.toNat ≤ c.toNat && c.toNat ≤ 'Z'.toNat)

/-- A character allowed in the local part: a letter, a digit, or one of . _ % + - -/
def isLocalChar (c : Char) : Bool :=
  isAsciiLetter c || isReDigit c || c == '.' || c == '_' || c == '%' || c == '+' || c == '-'

/-- A character allowed in the domain: a letter, a digit, a dot or a hyphen. -/
def isDomainChar (c : Char) : Bool :=
  isAsciiLetter c || isReDigit c || c == '.' || c == '-'

/-- The form local@domain.tld in the words of the specification: a local part of one or
more allowed characters, an at sign, a domain of one or more allowed characters, a dot,
and a top-level segment of two or more letters. -/
def EmailForm (s : List Char) : Prop :=
  ∃ loc dom tld : List Char, s = loc ++ '@' :: (dom ++ '.' :: tld) ∧
    loc ≠ [] ∧ (∀ c ∈ loc, isLocalChar c = true) ∧
    dom ≠ [] ∧ (∀ c ∈ dom, isDomainChar c = true) ∧
    2 ≤ tld.length ∧ ∀ c ∈ tld, isAsciiLetter c = true

/-- The string ends in a dot followed by two or more letters. -/
def EndsInTld (s : List Char) : Prop :=
  ∃ pre tld : List Char, s = pre ++ '.' :: tld ∧ 2 ≤ tld.length ∧
    ∀ c ∈ tld, isAsciiLetter c = true

/-- The ranges of the fields of a clock reading: a four-digit year, a month 1-12, a day
1-31, an hour 0-23, a minute and a second 0-59, and less than a second of nanoseconds. -/
def Time.WellFormed (t : Time) : Prop :=
  t.year ≤ 9999 ∧ 1 ≤ t.month ∧ t.month ≤ 12 ∧ 1 ≤ t.day ∧ t.day ≤ 31 ∧ t.hour ≤ 23 ∧
    t.minute ≤ 59 ∧ t.second ≤ 59 ∧ t.nano ≤ 999999999

/-- The number of digit characters 0-9 in a string. -/
def digitCount (s : String) : Nat := (s.data.filter isReDigit).length

/-! ## Properties of the validators -/

theorem len_empty : len "" = 0 := by decide

theorem len_pos_of_ne_empty (p : String) (h : p ≠ "") : 0 < len p := by
  cases p with
  | mk l =>
    cases l with
    | nil => exact absurd rfl h
    | cons a t =>
      have := Char.utf8Size_pos a
      simp only [len, String.utf8ByteSize, String.utf8ByteSize.go]
      omega

theorem scan_foldl (U : UnicodeTables) (l : List Char) (a b : Bool) :
    l.foldl
      (fun flags char =>
        ((if U.isLetter char then true else flags.1), (if U.isDigit char then true else flags.2)))
      (a, b) = (a || l.any U.isLetter, b || l.any U.isDigit) := by
  induction l generalizing a b with
  | nil => simp
  | cons c t ih =>
    simp only [List.foldl_cons, List.any_cons]
    rw [ih]
    cases a <;> cases b <;> cases U.isLetter c <;> cases U.isDigit c <;> simp

theorem scanPassword_eq (U : UnicodeTables) (p : String) :
    scanPassword U p = (p.data.any U.isLetter, p.data.any U.isDigit) := by
  unfold scanPassword
  rw [scan_foldl]
  simp

theorem isSpace_not_digit (c : Char) (h : isSpace c = true) : isReDigit c = false := by
  simp only [isSpace, isReDigit, Bool.or_eq_true, Bool.and_eq_true, decide_eq_true_eq,
    beq_iff_eq] at h
  have h0 : '0'.toNat = 48 := by decide
  have h9 : '9'.toNat = 57 := by decide
  simp only [isReDigit, h0, h9]
  by_contra hc
  simp only [Bool.not_eq_false, Bool.and_eq_true, decide_eq_true_eq] at hc
  omega

theorem filter_digit_dropWhile_space (l : List Char) :
    (l.dropWhile isSpace).filter isReDigit = l.filter isReDigit := by
  induction l with
  | nil => rfl
  | cons c t ih =>
    by_cases h : isSpace c = true
    · simp [List.dropWhile_cons, h, ih, isSpace_not_digit c h]
    · simp [List.dropWhile_cons, h]

theorem filter_digit_trim (l : List Char) :
    (trimRight (trimLeft l)).filter isReDigit = l.filter isReDigit := by
  unfold trimRight trimLeft
  rw [List.filter_reverse, filter_digit_dropWhile_space, ← List.filter_reverse,
    List.reverse_reverse, filter_digit_dropWhile_space]

theorem findAllDigits_length (s : String) : (findAllDigits s).length = digitCount s := by
  unfold findAllDigits digitCount
  induction s.data with
  | nil => rfl
  | cons c t ih =>
    by_cases h : isReDigit c = true
    · simp [List.filterMap_cons, h, ih]
    · simp [List.filterMap_cons, h, ih]

theorem findAllDigits_trimSpace (s : String) :
    (findAllDigits (trimSpace s)).length = digitCount s := by
  rw [findAllDigits_length]
  simp only [digitCount, trimSpace, filter_digit_trim]

theorem asciiTables_exact : asciiTables.AsciiExact := fun _ _ => ⟨rfl, rfl, rfl⟩

theorem validatePassword_eq_empty_iff (U : UnicodeTables) (p : String) :
    validatePassword U p = "" ↔
      p ≠ "" ∧ 6 ≤ len p ∧ len p ≤ 72 ∧
        (∃ c ∈ p.data, U.isLetter c = true) ∧ ∃ c ∈ p.data, U.isDigit c = true := by
  unfold validatePassword
  rw [scanPassword_eq]
  by_cases h1 : p = ""
  · simp [h1]
  by_cases h2 : len p < 6
  · simp [h1, h2]
  by_cases h3 : len p > 72
  · simp [h1, h2, h3]
  by_cases h4 : p.data.any U.isLetter = true
  · by_cases h5 : p.data.any U.isDigit = true
    · have h4e := List.any_eq_true.mp h4
      have h5e := List.any_eq_true.mp h5
      simp only [h1, h2, h3, h4, h5, if_false]
      simp only [Bool.not_true, Bool.false_eq_true, if_false, true_iff]
      exact ⟨fun h => h1 h, by omega, by omega, h4e, h5e⟩
    · have h5n : ¬ ∃ c ∈ p.data, U.isDigit c = true := fun h => h5 (List.any_eq_true.mpr h)
      simp [h1, h2, h3, h4, h5]
      intro _ _ _ _ _ c hc
      by_contra hd
      exact h5n ⟨c, hc, by simpa using hd⟩
  · have h4n : ¬ ∃ c ∈ p.data, U.isLetter c = true := fun h => h4 (List.any_eq_true.mpr h)
    simp [h1, h2, h3, h4]
    intro _ _ c hc hl
    exact absurd ⟨c, hc, hl⟩ h4n

/-- C4. `validatePassword` returns the message of the first violated rule, in the order
empty, byte length below 6, byte length above 72, no letter, no digit, and the empty
string exactly when no rule is violated. No other rule exists: "rose2024", with no
upper-case and no special character, is valid; "123456" lacks a letter, "abcdef" lacks
a digit, and the empty password is reported as required. -/
theorem validatePassword_first_violated_rule (U : UnicodeTables) (hU : U.AsciiExact)
    (p : String) :
    (p = "" → validatePassword U p = "Password is required") ∧
    (p ≠ "" → len p < 6 → validatePassword U p = "At least 6 characters") ∧
    (6 ≤ len p → 72 < len p → validatePassword U p = "Too long") ∧
    (6 ≤ len p → len p ≤ 72 → (∀ c ∈ p.data, U.isLetter c = false) →
      validatePassword U p = "Include a letter") ∧
    (6 ≤ len p → len p ≤ 72 → (∃ c ∈ p.data, U.isLetter c = true) →
      (∀ c ∈ p.data, U.isDigit c = false) → validatePassword U p = "Include a number") ∧
    (validatePassword U p = "" ↔
      p ≠ "" ∧ 6 ≤ len p ∧ len p ≤ 72 ∧
        (∃ c ∈ p.data, U.isLetter c = true) ∧ ∃ c ∈ p.data, U.isDigit c = true) ∧
    validatePassword U "rose2024" = "" ∧
    ("rose2024".data.all fun c => c.isLower || c.isDigit) = true ∧
    validatePassword U "123456" = "Include a letter" ∧
    validatePassword U "abcdef" = "Include a number" ∧
    validatePassword U "" = "Password is required" := by
  have hne : ∀ q : String, 6 ≤ len q → q ≠ "" := by
    intro q hq hq0
    rw [hq0, len_empty] at hq
    omega
  have letterNone : ∀ q : String, (∀ c ∈ q.data, U.isLetter c = false) →
      q.data.any U.isLetter = false := by
    intro q hq
    rw [Bool.eq_false_iff]
    intro h
    obtain ⟨c, hc, hl⟩ := List.any_eq_true.mp h
    rw [hq c hc] at hl
    exact Bool.false_ne_true hl
  have digitNone : ∀ q : String, (∀ c ∈ q.data, U.isDigit c = false) →
      q.data.any U.isDigit = false := by
    intro q hq
    rw [Bool.eq_false_iff]
    intro h
    obtain ⟨c, hc, hl⟩ := List.any_eq_true.mp h
    rw [hq c hc] at hl
    exact Bool.false_ne_true hl
  have rule4 : ∀ q : String, 6 ≤ len q → len q ≤ 72 → (∀ c ∈ q.data, U.isLetter c = false) →
      validatePassword U q = "Include a letter" := by
    intro q h6 h72 hl
    have h2 : ¬ len q < 6 := by omega
    have h3 : ¬ len q > 72 := by omega
    unfold validatePassword
    rw [scanPassword_eq]
    simp [hne q h6, h2, h3, letterNone q hl]
  have rule5 : ∀ q : String, 6 ≤ len q → len q ≤ 72 → (∃ c ∈ q.data, U.isLetter c = true) →
      (∀ c ∈ q.data, U.isDigit c = false) → validatePassword U q = "Include a number" := by
    intro q h6 h72 hl hd
    have h2 : ¬ len q < 6 := by omega
    have h3 : ¬ len q > 72 := by omega
    unfold validatePassword
    rw [scanPassword_eq]
    simp [hne q h6, h2, h3, List.any_eq_true.mpr hl, digitNone q hd]
  have letter : ∀ c : Char, c.toNat < 128 → U.isLetter c = c.isAlpha := fun c h => (hU c h).1
  have digit : ∀ c : Char, c.toNat < 128 → U.isDigit c = c.isDigit := fun c h => (hU c h).2.1
  refine ⟨?_, ?_, ?_, rule4 p, rule5 p, validatePassword_eq_empty_iff U p, ?_, by decide, ?_,
    ?_, ?_⟩
  · intro h
    simp [validatePassword, h]
  · intro h1 h2
    simp [validatePassword, h1, h2]
  · intro h6 h72
    have h2 : ¬ len p < 6 := by omega
    simp [validatePassword, hne p h6, h2, h72]
  · rw [validatePassword_eq_empty_iff]
    refine ⟨by decide, by decide, by decide, ⟨'r', by decide, ?_⟩, ⟨'2', by decide, ?_⟩⟩
    · rw [letter _ (by decide)]; decide
    · rw [digit _ (by decide)]; decide
  · apply rule4 _ (by decide) (by decide)
    intro c hc
    have hc2 : c = '1' ∨ c = '2' ∨ c = '3' ∨ c = '4' ∨ c = '5' ∨ c = '6' := by
      simpa using hc
    rcases hc2 with h | h | h | h | h | h <;> subst h <;> rw [letter _ (by decide)] <;> decide
  · apply rule5 _ (by decide) (by decide)
    · exact ⟨'a', by decide, by rw [letter _ (by decide)]; decide⟩
    · intro c hc
      have hc2 : c = 'a' ∨ c = 'b' ∨ c = 'c' ∨ c = 'd' ∨ c = 'e' ∨ c = 'f' := by
        simpa using hc
      rcases hc2 with h | h | h | h | h | h <;> subst h <;> rw [digit _ (by decide)] <;> decide
  · simp [validatePassword]

/-- Witness for C4: the rule order evaluated on the password "rose2024" with the tables cut
down to ASCII. -/
theorem validatePassword_first_violated_rule_witness :
    asciiTables.AsciiExact ∧ validatePassword asciiTables "rose2024" = "" ∧
      validatePassword asciiTables "123456" = "Include a letter" :=
  have h := validatePassword_first_violated_rule asciiTables asciiTables_exact "rose2024"
  ⟨asciiTables_exact, h.2.2.2.2.2.2.1, h.2.2.2.2.2.2.2.2.1⟩

/-- C5. Only the digit characters 0-9 count toward the bound of `validatePhone`: the
result is "Phone is required" when the string trims to empty, otherwise
"At least 10 digits needed" below ten digits, otherwise "Too many digits" above fifteen,
and it is valid exactly when the string does not trim to empty and holds ten to fifteen
digits. The digits are counted in the string as given, so the other characters and
their places do not matter: two strings that do not trim to empty and hold as many
digits get the same answer. "+1 (214) 214-2024" is valid, "123456789" is rejected, and
so is every string with sixteen digits. -/
theorem validatePhone_counts_digits_only (s : String) :
    (trimSpace s = "" → validatePhone s = "Phone is required") ∧
    (trimSpace s ≠ "" → digitCount s < 10 → validatePhone s = "At least 10 digits needed") ∧
    (trimSpace s ≠ "" → 10 ≤ digitCount s → 15 < digitCount s →
      validatePhone s = "Too many digits") ∧
    (16 ≤ digitCount s → validatePhone s = "Too many digits") ∧
    (validatePhone s = "" ↔ trimSpace s ≠ "" ∧ 10 ≤ digitCount s ∧ digitCount s ≤ 15) ∧
    (∀ s2 : String, trimSpace s ≠ "" → trimSpace s2 ≠ "" → digitCount s2 = digitCount s →
      validatePhone s2 = validatePhone s) ∧
    digitCount "+1 (214) 214-2024" = 11 ∧ validatePhone "+1 (214) 214-2024" = "" ∧
    validatePhone "123456789" = "At least 10 digits needed" := by
  have key : ∀ q : String, trimSpace q ≠ "" → validatePhone q =
      if digitCount q < 10 then "At least 10 digits needed"
      else if digitCount q > 15 then "Too many digits" else "" := by
    intro q hq
    simp only [validatePhone, hq, if_false, findAllDigits_trimSpace]
  have blank : ∀ q : String, trimSpace q = "" → digitCount q = 0 := by
    intro q hq
    have h := findAllDigits_trimSpace q
    rw [hq] at h
    rw [← h]
    rfl
  refine ⟨?_, ?_, ?_, ?_, ?_, ?_, by decide, by decide, by decide⟩
  · intro h
    simp [validatePhone, h]
  · intro h hd
    rw [key s h, if_pos hd]
  · intro h h10 h15
    rw [key s h, if_neg (by omega), if_pos h15]
  · intro h16
    have hne : trimSpace s ≠ "" := by
      intro h
      have := blank s h
      omega
    rw [key s hne, if_neg (by omega), if_pos (by omega)]
  · by_cases h : trimSpace s = ""
    · simp [validatePhone, h]
    · rw [key s h]
      by_cases h10 : digitCount s < 10
      · simp [h10]
      · by_cases h15 : digitCount s > 15
        · simp [h10, h15]
        · simp only [h10, h15, if_false, true_iff]
          exact ⟨h, by omega, by omega⟩
  · intro s2 h h2 hd
    rw [key s h, key s2 h2, hd]

/-! ## Properties of the session registry and the handlers -/

theorem generateSessionID_ne_empty (now : Time) : generateSessionID now ≠ "" := by
  intro h
  have hl := congrArg String.length h
  simp only [generateSessionID, formatStamp, String.length_append] at hl
  have h1 : ".".length = 1 := by decide
  have h0 : "".length = 0 := by decide
  omega

theorem mapSet_self (m : SessionStore) (k : String) (v : Nat) : mapSet m k v k = some v := by
  simp [mapSet]

theorem mapSet_other (m : SessionStore) (k : String) (v : Nat) (key : String) (h : key ≠ k) :
    mapSet m k v key = m key := by
  simp [mapSet, h]

theorem mapDelete_self (m : SessionStore) (k : String) : mapDelete m k k = none := by
  simp [mapDelete]

theorem mapDelete_other (m : SessionStore) (k key : String) (h : key ≠ k) :
    mapDelete m k key = m key := by
  simp [mapDelete, h]

theorem mapDelete_absent (m : SessionStore) (k : String) (h : m k = none) :
    mapDelete m k = m := by
  funext key
  by_cases hk : key = k
  · simp [mapDelete, hk, h]
  · simp [mapDelete, hk]

theorem mapDelete_idem (m : SessionStore) (k : String) :
    mapDelete (mapDelete m k) k = mapDelete m k :=
  mapDelete_absent _ _ (mapDelete_self m k)

/-- C1. `handleLogin` returns the first applicable outcome, in this order: normalized
email (lower-cased, then trimmed) empty, failure tagged "email"; password empty,
failure tagged "password"; no account under the normalized email, failure tagged
"email"; the stored hash does not verify the password, failure tagged "password";
otherwise success, the cookie carries the issued token and the registry afterwards is
the old one with the token bound to the account id. Every failure leaves the
registry and the store as they were. -/
theorem handleLogin_first_applicable (D : Database σ) (B : Bcrypt) (U : UnicodeTables)
    (st : State σ) (req : LoginRequest) (now : Time) :
    (trimSpace (toLower U req.Email) = "" →
      handleLogin D B U st (some req) now =
        (.json ⟨false, "Please enter your email", "email"⟩ none, st)) ∧
    (trimSpace (toLower U req.Email) ≠ "" → req.Password = "" →
      handleLogin D B U st (some req) now =
        (.json ⟨false, "Please enter your password", "password"⟩ none, st)) ∧
    (trimSpace (toLower U req.Email) ≠ "" → req.Password ≠ "" →
      D.firstByEmail st.db (trimSpace (toLower U req.Email)) = none →
      handleLogin D B U st (some req) now =
        (.json ⟨false, "No garden found with this email", "email"⟩ none, st)) ∧
    (∀ user, trimSpace (toLower U req.Email) ≠ "" → req.Password ≠ "" →
      D.firstByEmail st.db (trimSpace (toLower U req.Email)) = some user →
      B.compareHashAndPassword user.Password req.Password = false →
      handleLogin D B U st (some req) now =
        (.json ⟨false, "Incorrect secret phrase", "password"⟩ none, st)) ∧
    (∀ user, trimSpace (toLower U req.Email) ≠ "" → req.Password ≠ "" →
      D.firstByEmail st.db (trimSpace (toLower U req.Email)) = some user →
      B.compareHashAndPassword user.Password req.Password = true →
      (handleLogin D B U st (some req) now).1 =
          .json ⟨true, "Welcome to the Crystal Garden 🌹", ""⟩
            (some (sessionCookie (generateSessionID now))) ∧
        (handleLogin D B U st (some req) now).2.db = st.db ∧
        (handleLogin D B U st (some req) now).2.sessions =
          mapSet st.sessions (generateSessionID now) user.ID ∧
        (handleLogin D B U st (some req) now).2.sessions (generateSessionID now) =
          some user.ID) ∧
    (∀ body, (handleLogin D B U st (some req) now).1.body? = some body →
      body.Success = false → (handleLogin D B U st (some req) now).2 = st) := by
  refine ⟨?_, ?_, ?_, ?_, ?_, ?_⟩
  · intro h
    simp [handleLogin, h]
  · intro h hp
    simp [handleLogin, h, hp]
  · intro h hp hf
    simp [handleLogin, h, hp, hf]
  · intro user h hp hf hc
    simp [handleLogin, h, hp, hf, hc]
  · intro user h hp hf hc
    simp [handleLogin, h, hp, hf, hc, mapSet_self]
  · intro body hb hs
    by_cases h : trimSpace (toLower U req.Email) = ""
    · simp [handleLogin, h]
    by_cases hp : req.Password = ""
    · simp [handleLogin, h, hp]
    cases hf : D.firstByEmail st.db (trimSpace (toLower U req.Email)) with
    | none => simp [handleLogin, h, hp, hf]
    | some user =>
      cases hc : B.compareHashAndPassword user.Password req.Password with
      | false => simp [handleLogin, h, hp, hf, hc]
      | true =>
        simp only [handleLogin, h, hp, hf, hc, if_false, Bool.not_true, Bool.false_eq_true,
          Reply.body?, Option.some.injEq] at hb
        rw [← hb] at hs
        exact absurd hs (by decide)

/-- The end-to-end scenario for C1: with rose registered, a login under her email with the
password "wrong" fails tagged "password" and changes nothing, and a login with "rose2024"
succeeds and binds the issued token to her id. -/
theorem handleLogin_first_applicable_witness :
    handleLogin memStore saltedHasher asciiTables twoGardens
      (some ⟨"rose@crystal.garden", "wrong"⟩) stamp =
        (.json ⟨false, "Incorrect secret phrase", "password"⟩ none, twoGardens) ∧
    (handleLogin memStore saltedHasher asciiTables twoGardens
      (some ⟨"rose@crystal.garden", "rose2024"⟩) stamp).2.sessions (generateSessionID stamp) =
        some roseRow.ID :=
  ⟨(handleLogin_first_applicable memStore saltedHasher asciiTables twoGardens
      ⟨"rose@crystal.garden", "wrong"⟩ stamp).2.2.2.1 roseRow (by decide) (by decide) (by decide)
      (by decide),
    ((handleLogin_first_applicable memStore saltedHasher asciiTables twoGardens
      ⟨"rose@crystal.garden", "rose2024"⟩ stamp).2.2.2.2.1 roseRow (by decide) (by decide)
      (by decide) (by decide)).2.2.2⟩

/-- C2. `authMiddleware` lets the request through, with the account record attached,
exactly when the token is non-empty, the registry binds it to an id and an account with
that id exists; otherwise it redirects to /login. When the token resolves (it is
non-empty and bound) but the account is gone, the token is removed from the registry and
every other entry is unchanged; in all other cases the registry is unchanged. The store
is never changed. -/
theorem authMiddleware_authenticated_iff (D : Database σ) (st : State σ) (sessionID : String) :
    ((∃ user, (authMiddleware D st sessionID).1 = .next user) ↔
      sessionID ≠ "" ∧ ∃ id, st.sessions sessionID = some id ∧
        ∃ user, D.firstByID st.db id = some user) ∧
    (∀ id user, sessionID ≠ "" → st.sessions sessionID = some id →
      D.firstByID st.db id = some user → authMiddleware D st sessionID = (.next user, st)) ∧
    ((¬ (sessionID ≠ "" ∧ ∃ id, st.sessions sessionID = some id ∧
        ∃ user, D.firstByID st.db id = some user)) →
      (authMiddleware D st sessionID).1 = .redirect "/login" none) ∧
    (∀ id, sessionID ≠ "" → st.sessions sessionID = some id → D.firstByID st.db id = none →
      (authMiddleware D st sessionID).2.sessions = mapDelete st.sessions sessionID ∧
      (authMiddleware D st sessionID).2.sessions sessionID = none ∧
      ∀ key, key ≠ sessionID →
        (authMiddleware D st sessionID).2.sessions key = st.sessions key) ∧
    ((¬ (sessionID ≠ "" ∧ ∃ id, st.sessions sessionID = some id ∧
        D.firstByID st.db id = none)) → (authMiddleware D st sessionID).2 = st) ∧
    (authMiddleware D st sessionID).2.db = st.db := by
  by_cases h : sessionID = ""
  · simp [authMiddleware, h]
  cases hs : st.sessions sessionID with
  | none => simp [authMiddleware, h, hs]
  | some id =>
    cases hf : D.firstByID st.db id with
    | none =>
      have hr : authMiddleware D st sessionID =
          (.redirect "/login" none, { st with sessions := mapDelete st.sessions sessionID }) := by
        simp [authMiddleware, h, hs, hf]
      rw [hr]
      refine ⟨?_, ?_, ?_, ?_, ?_, rfl⟩
      · constructor
        · rintro ⟨user, hu⟩
          exact absurd hu (by simp)
        · rintro ⟨_, id2, h2, user, hu⟩
          rw [Option.some.inj h2, hu] at hf
          exact absurd hf (by simp)
      · intro id2 user _ h2 hu
        rw [Option.some.inj h2, hu] at hf
        exact absurd hf (by simp)
      · intro _
        rfl
      · intro id2 _ _ _
        exact ⟨rfl, mapDelete_self _ _, fun key hk => mapDelete_other _ _ _ hk⟩
      · intro hn
        exact absurd ⟨h, id, rfl, hf⟩ hn
    | some user =>
      have hr : authMiddleware D st sessionID = (.next user, st) := by
        simp [authMiddleware, h, hs, hf]
      rw [hr]
      refine ⟨?_, ?_, ?_, ?_, ?_, rfl⟩
      · exact ⟨fun _ => ⟨h, id, rfl, user, hf⟩, fun _ => ⟨user, rfl⟩⟩
      · intro id2 user2 _ h2 hu
        rw [← Option.some.inj h2, hf] at hu
        rw [Option.some.inj hu]
      · intro hn
        exact absurd ⟨h, id, rfl, user, hf⟩ hn
      · intro id2 _ h2 hu
        rw [← Option.some.inj h2, hf] at hu
        exact absurd hu (by simp)
      · intro _
        rfl

theorem handleLogin_success (D : Database σ) (B : Bcrypt) (U : UnicodeTables) (st : State σ)
    (req : LoginRequest) (now : Time) (body : APIResponse)
    (hb : (handleLogin D B U st (some req) now).1.body? = some body)
    (hs : body.Success = true) :
    ∃ user, D.firstByEmail st.db (normalizeEmail U req.Email) = some user ∧
      B.compareHashAndPassword user.Password req.Password = true ∧
      handleLogin D B U st (some req) now =
        (.json ⟨true, "Welcome to the Crystal Garden 🌹", ""⟩
            (some (sessionCookie (generateSessionID now))),
          { st with sessions := mapSet st.sessions (generateSessionID now) user.ID }) := by
  unfold normalizeEmail
  by_cases h : trimSpace (toLower U req.Email) = ""
  · simp [handleLogin, h, Reply.body?] at hb
    rw [← hb] at hs
    exact absurd hs Bool.false_ne_true
  by_cases hp : req.Password = ""
  · simp [handleLogin, h, hp, Reply.body?] at hb
    rw [← hb] at hs
    exact absurd hs Bool.false_ne_true
  cases hf : D.firstByEmail st.db (trimSpace (toLower U req.Email)) with
  | none =>
    simp [handleLogin, h, hp, hf, Reply.body?] at hb
    rw [← hb] at hs
    exact absurd hs Bool.false_ne_true
  | some user =>
    cases hc : B.compareHashAndPassword user.Password req.Password with
    | false =>
      simp [handleLogin, h, hp, hf, hc, Reply.body?] at hb
      rw [← hb] at hs
      exact absurd hs Bool.false_ne_true
    | true =>
      exact ⟨user, rfl, hc, by simp [handleLogin, h, hp, hf, hc]⟩

theorem handleLogin_sessions (D : Database σ) (B : Bcrypt) (U : UnicodeTables) (st : State σ)
    (body : Option LoginRequest) (now : Time) :
    (handleLogin D B U st body now).2.db = st.db ∧
    ((handleLogin D B U st body now).2.sessions = st.sessions ∨
      ∃ id, (handleLogin D B U st body now).2.sessions =
        mapSet st.sessions (generateSessionID now) id) := by
  cases body with
  | none => simp [handleLogin]
  | some req =>
    by_cases h : trimSpace (toLower U req.Email) = ""
    · simp [handleLogin, h]
    by_cases hp : req.Password = ""
    · simp [handleLogin, h, hp]
    cases hf : D.firstByEmail st.db (trimSpace (toLower U req.Email)) with
    | none => simp [handleLogin, h, hp, hf]
    | some user =>
      cases hc : B.compareHashAndPassword user.Password req.Password with
      | false => simp [handleLogin, h, hp, hf, hc]
      | true =>
        refine ⟨by simp [handleLogin, h, hp, hf, hc], Or.inr ⟨user.ID, ?_⟩⟩
        simp [handleLogin, h, hp, hf, hc]

theorem handleRegister_success (D : Database σ) (B : Bcrypt) (U : UnicodeTables) (st : State σ)
    (req : RegisterRequest) (env : RegisterEnv) (body : APIResponse)
    (hb : (handleRegister D B U st (some req) env).1.body? = some body)
    (hs : body.Success = true) :
    ∃ hashed db row,
      validateEmail (normalizeEmail U req.Email) = "" ∧
      validatePhone (trimSpace req.Phone) = "" ∧
      validatePassword U req.Password = "" ∧
      D.firstByEmail st.db (normalizeEmail U req.Email) = none ∧
      B.generateFromPassword req.Password env.salt = some hashed ∧
      D.create st.db env.insertTime
        ⟨0, normalizeEmail U req.Email, trimSpace req.Phone, hashed, ⟨0, 0, 0, 0, 0, 0, 0⟩⟩ =
          .ok (db, row) ∧
      handleRegister D B U st (some req) env =
        (.json ⟨true, "Your crystal rose has bloomed 🌹", ""⟩
            (some (sessionCookie (generateSessionID env.sessionTime))),
          { db := db,
            sessions := mapSet st.sessions (generateSessionID env.sessionTime) row.ID }) := by
  unfold normalizeEmail
  by_cases h1 : validateEmail (trimSpace (toLower U req.Email)) = ""
  swap
  · simp [handleRegister, h1, Reply.body?] at hb
    rw [← hb] at hs
    exact absurd hs Bool.false_ne_true
  by_cases h2 : validatePhone (trimSpace req.Phone) = ""
  swap
  · simp [handleRegister, h1, h2, Reply.body?] at hb
    rw [← hb] at hs
    exact absurd hs Bool.false_ne_true
  by_cases h3 : validatePassword U req.Password = ""
  swap
  · simp [handleRegister, h1, h2, h3, Reply.body?] at hb
    rw [← hb] at hs
    exact absurd hs Bool.false_ne_true
  cases hf : D.firstByEmail st.db (trimSpace (toLower U req.Email)) with
  | some existing =>
    simp [handleRegister, h1, h2, h3, hf, Reply.body?] at hb
    rw [← hb] at hs
    exact absurd hs Bool.false_ne_true
  | none =>
    cases hg : B.generateFromPassword req.Password env.salt with
    | none =>
      simp [handleRegister, h1, h2, h3, hf, hg, Reply.body?] at hb
      rw [← hb] at hs
      exact absurd hs Bool.false_ne_true
    | some hashed =>
      cases hc : D.create st.db env.insertTime
          ⟨0, trimSpace (toLower U req.Email), trimSpace req.Phone, hashed,
            ⟨0, 0, 0, 0, 0, 0, 0⟩⟩ with
      | error e =>
        simp [handleRegister, h1, h2, h3, hf, hg, hc, Reply.body?] at hb
        rw [← hb] at hs
        exact absurd hs Bool.false_ne_true
      | ok res =>
        obtain ⟨db, row⟩ := res
        exact ⟨hashed, db, row, h1, h2, h3, rfl, rfl, hc, by
          simp [handleRegister, h1, h2, h3, hf, hg, hc]⟩

theorem handleRegister_sessions (D : Database σ) (B : Bcrypt) (U : UnicodeTables)
    (st : State σ) (body : Option RegisterRequest) (env : RegisterEnv) :
    (handleRegister D B U st body env).2.sessions = st.sessions ∨
      ∃ id, (handleRegister D B U st body env).2.sessions =
        mapSet st.sessions (generateSessionID env.sessionTime) id := by
  cases body with
  | none => simp [handleRegister]
  | some req =>
    by_cases h1 : validateEmail (trimSpace (toLower U req.Email)) = ""
    swap
    · simp [handleRegister, h1]
    by_cases h2 : validatePhone (trimSpace req.Phone) = ""
    swap
    · simp [handleRegister, h1, h2]
    by_cases h3 : validatePassword U req.Password = ""
    swap
    · simp [handleRegister, h1, h2, h3]
    cases hf : D.firstByEmail st.db (trimSpace (toLower U req.Email)) with
    | some existing => simp [handleRegister, h1, h2, h3, hf]
    | none =>
      cases hg : B.generateFromPassword req.Password env.salt with
      | none => simp [handleRegister, h1, h2, h3, hf, hg]
      | some hashed =>
        cases hc : D.create st.db env.insertTime
            ⟨0, trimSpace (toLower U req.Email), trimSpace req.Phone, hashed,
              ⟨0, 0, 0, 0, 0, 0, 0⟩⟩ with
        | error e => simp [handleRegister, h1, h2, h3, hf, hg, hc]
        | ok res =>
          obtain ⟨db, row⟩ := res
          exact Or.inr ⟨row.ID, by simp [handleRegister, h1, h2, h3, hf, hg, hc]⟩

theorem authMiddleware_sessions (D : Database σ) (st : State σ) (sessionID : String) :
    (authMiddleware D st sessionID).2.sessions = st.sessions ∨
      (authMiddleware D st sessionID).2.sessions = mapDelete st.sessions sessionID := by
  by_cases h : sessionID = ""
  · simp [authMiddleware, h]
  cases hs : st.sessions sessionID with
  | none => simp [authMiddleware, h, hs]
  | some id =>
    cases hf : D.firstByID st.db id with
    | none => simp [authMiddleware, h, hs, hf]
    | some user => simp [authMiddleware, h, hs, hf]

theorem handleLogout_eq (st : State σ) (sessionID : String) :
    handleLogout st sessionID =
      (.redirect "/login" (some clearedCookie),
        if sessionID = "" then st else { st with sessions := mapDelete st.sessions sessionID }) := by
  by_cases h : sessionID = "" <;> simp [handleLogout, h]

theorem reachable_no_empty_token (D : Database σ) (B : Bcrypt) (U : UnicodeTables)
    (st : State σ) (h : Reachable D B U st) : st.sessions "" = none := by
  induction h with
  | start db => rfl
  | login body now _ ih =>
    rcases (handleLogin_sessions D B U _ body now).2 with h | ⟨id, h⟩
    · rw [h]; exact ih
    · rw [h, mapSet_other _ _ _ _ (Ne.symm (generateSessionID_ne_empty now))]; exact ih
  | register body env _ ih =>
    rcases handleRegister_sessions D B U _ body env with h | ⟨id, h⟩
    · rw [h]; exact ih
    · rw [h, mapSet_other _ _ _ _ (Ne.symm (generateSessionID_ne_empty _))]; exact ih
  | middleware sessionID _ ih =>
    rcases authMiddleware_sessions D _ sessionID with h | h
    · rw [h]; exact ih
    · rw [h]
      by_cases hk : "" = sessionID
      · rw [← hk]; exact mapDelete_self _ _
      · rw [mapDelete_other _ _ _ hk]; exact ih
  | logout sessionID _ ih =>
    rw [handleLogout_eq]
    by_cases hk : sessionID = ""
    · simp only [hk, if_true]; exact ih
    · simp only [hk, if_false]
      rw [mapDelete_other _ _ _ (Ne.symm hk)]; exact ih
  | outOfBand db _ ih => exact ih

/-- C7. Revocation is an exact, idempotent removal. `handleLogout` always answers with
the redirect to /login and the cleared cookie (never an error) and leaves the store
alone. For every token and every state of the running service, and for a non-empty
token in any state whatsoever, the registry afterwards equals the previous one with the
token removed: the token resolves to absent and every other token keeps its binding. An
empty, unknown or already revoked token changes nothing. A token issued by a successful
login or registration resolves to the issuing account id before the logout and to absent
after it. -/
theorem handleLogout_exact_removal (D : Database σ) (B : Bcrypt) (U : UnicodeTables)
    (st : State σ) (t : String) :
    (handleLogout st t).1 = .redirect "/login" (some clearedCookie) ∧
    (handleLogout st t).2.db = st.db ∧
    (Reachable D B U st →
      (handleLogout st t).2.sessions = mapDelete st.sessions t ∧
      (handleLogout st t).2.sessions t = none) ∧
    (t ≠ "" →
      (handleLogout st t).2.sessions = mapDelete st.sessions t ∧
      (handleLogout st t).2.sessions t = none) ∧
    (∀ key, key ≠ t → (handleLogout st t).2.sessions key = st.sessions key) ∧
    (t = "" ∨ st.sessions t = none → (handleLogout st t).2 = st) ∧
    (handleLogout (handleLogout st t).2 t).2 = (handleLogout st t).2 ∧
    (∀ (req : LoginRequest) (now : Time) (body : APIResponse),
      (handleLogin D B U st (some req) now).1.body? = some body → body.Success = true →
      ∃ user, D.firstByEmail st.db (normalizeEmail U req.Email) = some user ∧
        (handleLogin D B U st (some req) now).2.sessions (generateSessionID now) =
          some user.ID ∧
        (handleLogout (handleLogin D B U st (some req) now).2
          (generateSessionID now)).2.sessions (generateSessionID now) = none) ∧
    (∀ (req : RegisterRequest) (env : RegisterEnv) (body : APIResponse),
      (handleRegister D B U st (some req) env).1.body? = some body → body.Success = true →
      ∃ (hashed : String) (db : σ) (row : User),
        B.generateFromPassword req.Password env.salt = some hashed ∧
        D.create st.db env.insertTime
          ⟨0, normalizeEmail U req.Email, trimSpace req.Phone, hashed,
            ⟨0, 0, 0, 0, 0, 0, 0⟩⟩ = .ok (db, row) ∧
        (handleRegister D B U st (some req) env).2.sessions
          (generateSessionID env.sessionTime) = some row.ID ∧
        (handleLogout (handleRegister D B U st (some req) env).2
          (generateSessionID env.sessionTime)).2.sessions
            (generateSessionID env.sessionTime) = none) := by
  have hdel : t ≠ "" ∨ st.sessions "" = none →
      (handleLogout st t).2.sessions = mapDelete st.sessions t := by
    intro hor
    rw [handleLogout_eq]
    by_cases h : t = ""
    · simp only [h, if_true]
      rcases hor with h1 | h1
      · exact absurd h h1
      · exact (mapDelete_absent _ _ h1).symm
    · simp only [h, if_false]
  have hboth : t ≠ "" ∨ st.sessions "" = none →
      (handleLogout st t).2.sessions = mapDelete st.sessions t ∧
        (handleLogout st t).2.sessions t = none := by
    intro hor
    refine ⟨hdel hor, ?_⟩
    rw [hdel hor]
    exact mapDelete_self _ _
  have hsame : t = "" ∨ st.sessions t = none → (handleLogout st t).2 = st := by
    intro h
    rw [handleLogout_eq]
    by_cases h0 : t = ""
    · simp only [h0, if_true]
    · simp only [h0, if_false]
      rcases h with h | h
      · exact absurd h h0
      · rw [mapDelete_absent _ _ h]
  have hafter : ∀ (s : State σ) (k : String), k ≠ "" → (handleLogout s k).2.sessions k = none := by
    intro s k hk
    rw [handleLogout_eq]
    simp only [hk, if_false]
    exact mapDelete_self _ _
  refine ⟨by rw [handleLogout_eq], by rw [handleLogout_eq]; split <;> rfl,
    fun hst => hboth (Or.inr (reachable_no_empty_token D B U st hst)),
    fun ht => hboth (Or.inl ht), ?_, hsame, ?_, ?_, ?_⟩
  · intro key hk
    rw [handleLogout_eq]
    by_cases h0 : t = ""
    · simp only [h0, if_true]
    · simp only [h0, if_false]
      exact mapDelete_other _ _ _ hk
  · rw [handleLogout_eq st t]
    by_cases h0 : t = ""
    · simp only [h0, if_true]
      rw [handleLogout_eq]
      simp
    · simp only [h0, if_false]
      rw [handleLogout_eq]
      simp only [h0, if_false, mapDelete_idem]
  · intro req now body hb hs
    obtain ⟨user, hf, _, hr⟩ := handleLogin_success D B U st req now body hb hs
    refine ⟨user, hf, ?_, hafter _ _ (generateSessionID_ne_empty now)⟩
    rw [hr]
    simp [mapSet]
  · intro req env body hb hs
    obtain ⟨hashed, db, row, _, _, _, hf, hg, hc, hr⟩ :=
      handleRegister_success D B U st req env body hb hs
    refine ⟨hashed, db, row, hg, hc, ?_, hafter _ _ (generateSessionID_ne_empty _)⟩
    rw [hr]
    simp [mapSet]

/-- C8, as stated, fails: rose logs in at a clock reading, lily logs in at the same clock
reading; the token generated for lily is already a key of the registry, bound to rose,
and issuing lily's session re-binds it to lily. -/
theorem generateSessionID_collides :
    Reachable memStore saltedHasher asciiTables roseLoggedIn ∧
    stamp.WellFormed ∧
    roseLoggedIn.sessions (generateSessionID stamp) = some 1 ∧
    (handleLogin memStore saltedHasher asciiTables roseLoggedIn
      (some ⟨"lily@crystal.garden", "lily2024"⟩) stamp).1 =
        .json ⟨true, "Welcome to the Crystal Garden 🌹", ""⟩
          (some (sessionCookie (generateSessionID stamp))) ∧
    (handleLogin memStore saltedHasher asciiTables roseLoggedIn
      (some ⟨"lily@crystal.garden", "lily2024"⟩) stamp).2.sessions (generateSessionID stamp) =
        some 2 :=
  ⟨Reachable.login _ _ (Reachable.start _), by unfold Time.WellFormed; decide, by decide,
    by decide, by decide⟩

/-- C8, amended. Whenever `handleLogin` or `handleRegister` issues a session, for every
registry state and every clock reading, the token is the formatted clock reading and is
bound without consulting the registry: the registry afterwards is the old one with the
token bound to the id of the issuing account (the account found at login, the row
created at registration), and every other token keeps its binding. When the registry
held no binding under the token, no active binding is changed; when it held one (a
session issued at the same clock reading), that binding is replaced by the new one. -/
theorem issue_binds_clock_reading (D : Database σ) (B : Bcrypt) (U : UnicodeTables)
    (st : State σ) :
    (∀ (req : LoginRequest) (now : Time) (body : APIResponse),
      (handleLogin D B U st (some req) now).1.body? = some body → body.Success = true →
      ∃ user, D.firstByEmail st.db (normalizeEmail U req.Email) = some user ∧
        (handleLogin D B U st (some req) now).1 =
          .json ⟨true, "Welcome to the Crystal Garden 🌹", ""⟩
            (some (sessionCookie (formatStamp now))) ∧
        (handleLogin D B U st (some req) now).2.sessions =
          mapSet st.sessions (formatStamp now) user.ID ∧
        (handleLogin D B U st (some req) now).2.sessions (formatStamp now) = some user.ID ∧
        (∀ key, key ≠ formatStamp now →
          (handleLogin D B U st (some req) now).2.sessions key = st.sessions key) ∧
        (st.sessions (formatStamp now) = none → ∀ key id, st.sessions key = some id →
          (handleLogin D B U st (some req) now).2.sessions key = some id)) ∧
    (∀ (req : RegisterRequest) (env : RegisterEnv) (body : APIResponse),
      (handleRegister D B U st (some req) env).1.body? = some body → body.Success = true →
      ∃ (hashed : String) (db : σ) (row : User),
        B.generateFromPassword req.Password env.salt = some hashed ∧
        D.create st.db env.insertTime
          ⟨0, normalizeEmail U req.Email, trimSpace req.Phone, hashed,
            ⟨0, 0, 0, 0, 0, 0, 0⟩⟩ = .ok (db, row) ∧
        (handleRegister D B U st (some req) env).1 =
          .json ⟨true, "Your crystal rose has bloomed 🌹", ""⟩
            (some (sessionCookie (formatStamp env.sessionTime))) ∧
        (handleRegister D B U st (some req) env).2.db = db ∧
        (handleRegister D B U st (some req) env).2.sessions =
          mapSet st.sessions (formatStamp env.sessionTime) row.ID ∧
        (handleRegister D B U st (some req) env).2.sessions (formatStamp env.sessionTime) =
          some row.ID ∧
        (∀ key, key ≠ formatStamp env.sessionTime →
          (handleRegister D B U st (some req) env).2.sessions key = st.sessions key) ∧
        (st.sessions (formatStamp env.sessionTime) = none → ∀ key id, st.sessions key = some id →
          (handleRegister D B U st (some req) env).2.sessions key = some id)) := by
  have frame : ∀ (m : SessionStore) (k : String) (v : Nat),
      mapSet m k v k = some v ∧ (∀ key, key ≠ k → mapSet m k v key = m key) ∧
        (m k = none → ∀ key id, m key = some id → mapSet m k v key = some id) := by
    intro m k v
    refine ⟨by simp [mapSet], fun key hk => by simp [mapSet, hk], ?_⟩
    intro hnone key id hkey
    have hk : key ≠ k := by
      intro h
      rw [h, hnone] at hkey
      exact absurd hkey (by simp)
    simp [mapSet, hk, hkey]
  refine ⟨?_, ?_⟩
  · intro req now body hb hs
    obtain ⟨user, hf, _, hr⟩ := handleLogin_success D B U st req now body hb hs
    have hsess : (handleLogin D B U st (some req) now).2.sessions =
        mapSet st.sessions (formatStamp now) user.ID := by rw [hr]; rfl
    have hreply : (handleLogin D B U st (some req) now).1 =
        .json ⟨true, "Welcome to the Crystal Garden 🌹", ""⟩
          (some (sessionCookie (formatStamp now))) := by rw [hr]; rfl
    rw [hsess]
    exact ⟨user, hf, hreply, rfl, frame _ _ _⟩
  · intro req env body hb hs
    obtain ⟨hashed, db, row, _, _, _, _, hg, hc, hr⟩ :=
      handleRegister_success D B U st req env body hb hs
    have hsess : (handleRegister D B U st (some req) env).2.sessions =
        mapSet st.sessions (formatStamp env.sessionTime) row.ID := by rw [hr]; rfl
    have hreply : (handleRegister D B U st (some req) env).1 =
        .json ⟨true, "Your crystal rose has bloomed 🌹", ""⟩
          (some (sessionCookie (formatStamp env.sessionTime))) := by rw [hr]; rfl
    have hdb : (handleRegister D B U st (some req) env).2.db = db := by rw [hr]
    rw [hsess]
    exact ⟨hashed, db, row, hg, hc, hreply, hdb, rfl, frame _ _ _⟩

/-- C9, as stated, fails: the pre-check finds no account for rose@crystal.garden, a
concurrent registration commits that email before the insert, the store rejects the
insert with a duplicate-key error, and `handleRegister` answers with the general
"Failed to create garden" message, not with the duplicate-email reply of the pre-check. -/
theorem create_failure_reported_as_general :
    racingStore.firstByEmail racingStart.db "rose@crystal.garden" = none ∧
    racingStore.create racingStart.db stamp
      ⟨0, "rose@crystal.garden", "+1 (214) 214-2024", "7$rose2024", ⟨0, 0, 0, 0, 0, 0, 0⟩⟩ =
        .error .duplicateKey ∧
    (handleRegister racingStore saltedHasher asciiTables racingStart (some roseRequest) roseEnv).1 =
      .json ⟨false, "Failed to create garden", "general"⟩ none ∧
    (handleRegister racingStore saltedHasher asciiTables racingStart (some roseRequest) roseEnv).1 ≠
      .json ⟨false, "This garden already exists", "email"⟩ none := by
  decide

/-- C9, amended. When the fields pass validation, the existence pre-check finds nothing,
the password is hashed and the store then refuses the insert, whatever the reason and a
duplicate email included, `handleRegister` answers success=false with the message
"Failed to create garden" tagged "general", issues no session and leaves store and
registry as they were. -/
theorem create_failure_is_general (D : Database σ) (B : Bcrypt) (U : UnicodeTables)
    (st : State σ) (req : RegisterRequest) (env : RegisterEnv) (hashed : String) (e : DBError)
    (hemail : validateEmail (normalizeEmail U req.Email) = "")
    (hphone : validatePhone (trimSpace req.Phone) = "")
    (hpass : validatePassword U req.Password = "")
    (hpre : D.firstByEmail st.db (normalizeEmail U req.Email) = none)
    (hhash : B.generateFromPassword req.Password env.salt = some hashed)
    (hcreate : D.create st.db env.insertTime
      ⟨0, normalizeEmail U req.Email, trimSpace req.Phone, hashed, ⟨0, 0, 0, 0, 0, 0, 0⟩⟩ =
        .error e) :
    handleRegister D B U st (some req) env =
      (.json ⟨false, "Failed to create garden", "general"⟩ none, st) := by
  unfold normalizeEmail at hemail hpre hcreate
  simp [handleRegister, hemail, hphone, hpass, hpre, hhash, hcreate]

/-- Witness for the amended C9: the racing registration of rose@crystal.garden. -/
theorem create_failure_is_general_witness :
    handleRegister racingStore saltedHasher asciiTables racingStart (some roseRequest) roseEnv =
      (.json ⟨false, "Failed to create garden", "general"⟩ none, racingStart) :=
  create_failure_is_general racingStore saltedHasher asciiTables racingStart roseRequest roseEnv
    "7$rose2024" .duplicateKey (by decide) (by decide) (by decide) (by decide) (by decide)
    (by decide)

theorem roseDeleted_sessions : roseDeleted.sessions =
    mapSet (mapSet (mapSet emptySessions (formatStamp stamp) 1) (formatStamp laterStamp) 1)
      (formatStamp lilyStamp) 2 := by
  rfl

theorem roseDeleted_entries (key : String) (id : Nat) (h : roseDeleted.sessions key = some id) :
    id = 1 ∨ id = 2 := by
  rw [roseDeleted_sessions] at h
  simp only [mapSet, emptySessions] at h
  split at h
  · exact Or.inr (Option.some.inj h).symm
  · split at h
    · exact Or.inl (Option.some.inj h).symm
    · split at h
      · exact Or.inl (Option.some.inj h).symm
      · exact absurd h (by simp)

theorem roseDeleted_reachable : Reachable memStore saltedHasher asciiTables roseDeleted :=
  Reachable.outOfBand _
    (Reachable.login _ _ (Reachable.login _ _ (Reachable.login _ _ (Reachable.start _))))

/-- C10, as stated, fails. Rose logs in twice and lily once, then the account of rose is
deleted out of band: every registry entry refers to an existing account except the two
entries bound to the deleted account. After `authMiddleware` runs with the first token
of rose the outcome is the redirect to /login, but her second token is still in the
registry and refers to the account that does not exist. -/
theorem authMiddleware_leaves_sibling_stale :
    Reachable memStore saltedHasher asciiTables roseDeleted ∧
    memStore.firstByID roseDeleted.db 1 = none ∧
    roseDeleted.sessions "20240315143025.123456789" = some 1 ∧
    roseDeleted.sessions "20240315180500.000000042" = some 1 ∧
    (∀ key id, roseDeleted.sessions key = some id → id ≠ 1 →
      ∃ user, memStore.firstByID roseDeleted.db id = some user) ∧
    (authMiddleware memStore roseDeleted "20240315143025.123456789").1 =
      .redirect "/login" none ∧
    (authMiddleware memStore roseDeleted "20240315143025.123456789").2.sessions
      "20240315180500.000000042" = some 1 ∧
    memStore.firstByID
      (authMiddleware memStore roseDeleted "20240315143025.123456789").2.db 1 = none := by
  refine ⟨roseDeleted_reachable, by decide, by decide, by decide, ?_, by decide, by decide,
    by decide⟩
  intro key id hkey hid
  rcases roseDeleted_entries key id hkey with h1 | h2
  · exact absurd h1 hid
  · exact ⟨lilyRow, by rw [h2]; decide⟩

/-- C10, amended. In a state where every registry entry refers to an existing account
except the entries bound to one deleted account, `authMiddleware` run with a non-empty
token bound to the deleted account redirects to /login and removes that token; the store
and every other entry are untouched. Hence no stale entry is left when the token was the
only entry bound to the deleted account, and the other entries bound to it stay until
they are presented themselves. -/
theorem authMiddleware_heals_presented_token (D : Database σ) (st : State σ) (t : String)
    (deleted : Nat) (ht : t ≠ "") (hbound : st.sessions t = some deleted)
    (hgone : D.firstByID st.db deleted = none)
    (hrest : ∀ key id, st.sessions key = some id → id ≠ deleted →
      ∃ user, D.firstByID st.db id = some user) :
    (authMiddleware D st t).1 = .redirect "/login" none ∧
    (authMiddleware D st t).2.db = st.db ∧
    (authMiddleware D st t).2.sessions t = none ∧
    (∀ key, key ≠ t → (authMiddleware D st t).2.sessions key = st.sessions key) ∧
    ((∀ key, key ≠ t → st.sessions key ≠ some deleted) →
      ∀ key id, (authMiddleware D st t).2.sessions key = some id →
        ∃ user, D.firstByID (authMiddleware D st t).2.db id = some user) ∧
    (∀ key, key ≠ t → st.sessions key = some deleted →
      (authMiddleware D st t).2.sessions key = some deleted ∧
        D.firstByID (authMiddleware D st t).2.db deleted = none) := by
  have hr : authMiddleware D st t =
      (.redirect "/login" none, { st with sessions := mapDelete st.sessions t }) := by
    simp [authMiddleware, ht, hbound, hgone]
  rw [hr]
  have hother : ∀ key, key ≠ t → mapDelete st.sessions t key = st.sessions key :=
    fun key hk => mapDelete_other _ _ _ hk
  refine ⟨rfl, rfl, mapDelete_self _ _, hother, ?_, ?_⟩
  · intro honly key id hkey
    by_cases hk : key = t
    · rw [hk] at hkey
      have : mapDelete st.sessions t t = none := mapDelete_self _ _
      simp only at hkey
      rw [this] at hkey
      exact absurd hkey (by simp)
    · have hkey2 : st.sessions key = some id := by
        rw [← hother key hk]; exact hkey
      apply hrest key id hkey2
      intro hid
      rw [hid] at hkey2
      exact honly key hk hkey2
  · intro key hk hkey
    exact ⟨by rw [← hkey]; exact hother key hk, hgone⟩

/-- Witness for the amended C10: the account of rose deleted, her first token presented. -/
theorem authMiddleware_heals_presented_token_witness :
    (authMiddleware memStore roseDeleted "20240315143025.123456789").1 =
      .redirect "/login" none ∧
    (authMiddleware memStore roseDeleted "20240315143025.123456789").2.sessions
      "20240315143025.123456789" = none :=
  have h := authMiddleware_heals_presented_token memStore roseDeleted
    "20240315143025.123456789" 1 (by decide) (by decide) (by decide) (by
      intro key id hkey hid
      rcases roseDeleted_entries key id hkey with h1 | h2
      · exact absurd h1 hid
      · exact ⟨lilyRow, by rw [h2]; decide⟩)
  ⟨h.1, h.2.2.1⟩

/-! ### Registration -/

theorem trimLeft_trimRight_trimLeft (l : List Char) :
    trimLeft (trimRight (trimLeft l)) = trimRight (trimLeft l) := by
  rcases hm : trimLeft l with _ | ⟨a, m⟩
  · rfl
  · have hne0 : List.dropWhile isSpace l ≠ [] := by
      change trimLeft l ≠ []
      rw [hm]; simp
    have ha : isSpace a = false := by
      have h := List.head_dropWhile_not isSpace l hne0
      have h2 : (List.dropWhile isSpace l).head hne0 = a := by
        simp [show List.dropWhile isSpace l = a :: m from hm]
      rw [h2] at h
      exact h
    have hne : trimRight (a :: m) ≠ [] := by
      change List.rdropWhile isSpace (a :: m) ≠ []
      intro h
      rw [List.rdropWhile_eq_nil_iff] at h
      have := h a (List.mem_cons_self a m)
      rw [ha] at this
      exact Bool.false_ne_true this
    have hpre : trimRight (a :: m) <+: a :: m := List.rdropWhile_prefix isSpace _
    rcases hr : trimRight (a :: m) with _ | ⟨b, r⟩
    · exact absurd hr hne
    · rw [hr] at hpre
      obtain ⟨t, ht⟩ := hpre
      have hb : b = a := by
        simp at ht
        exact ht.1
      subst hb
      simp [trimLeft, List.dropWhile_cons, ha]

theorem trimSpace_idem (s : String) : trimSpace (trimSpace s) = trimSpace s := by
  simp only [trimSpace]
  rw [trimLeft_trimRight_trimLeft]
  congr 1
  exact List.rdropWhile_idempotent isSpace _

theorem validatePhone_trimSpace (s : String) : validatePhone (trimSpace s) = validatePhone s := by
  simp only [validatePhone, trimSpace_idem]

theorem memStore_findsCreated : memStore.FindsCreated := by
  intro db t u db2 row h
  simp only [memStore] at h
  split at h
  · exact absurd h (by simp)
  · rename_i hany
    have hnone : ∀ x ∈ db.users, (x.Email == u.Email) = false := by
      intro x hx
      by_contra hc
      exact hany (List.any_eq_true.mpr ⟨x, hx, by simpa using hc⟩)
    injection h with h
    injection h with hdb hrow
    refine ⟨{ u with ID := db.nextID, CreatedAt := t }, ?_⟩
    rw [← hdb]
    simp only [memStore, List.find?_append]
    have hfind : List.find? (fun x => x.Email == u.Email) db.users = none := by
      rw [List.find?_eq_none]
      intro x hx
      rw [hnone x hx]
      simp
    rw [hfind]
    simp

/-- C3. Registering the same normalized email twice fails the second time without
mutating state. On a store that finds what it has created, after a successful
`handleRegister` with email e1 the store holds the row created with e1 lower-cased and
trimmed, and every `handleRegister` with an email that normalizes to the same string and
with a valid phone and password answers success=false with "This garden already exists"
tagged "email", and returns the store and the registry exactly as they were; the same
holds in every later state in which the account is still found. -/
theorem handleRegister_duplicate_rejected (D : Database σ) (hD : D.FindsCreated) (B : Bcrypt)
    (U : UnicodeTables) (st : State σ) (req1 : RegisterRequest) (env1 : RegisterEnv)
    (body1 : APIResponse)
    (hb : (handleRegister D B U st (some req1) env1).1.body? = some body1)
    (hs : body1.Success = true)
    (req2 : RegisterRequest) (env2 : RegisterEnv)
    (hsame : normalizeEmail U req2.Email = normalizeEmail U req1.Email)
    (hphone : validatePhone req2.Phone = "")
    (hpass : validatePassword U req2.Password = "") :
    (∃ (hashed : String) (row : User),
      D.create st.db env1.insertTime
        ⟨0, normalizeEmail U req1.Email, trimSpace req1.Phone, hashed,
          ⟨0, 0, 0, 0, 0, 0, 0⟩⟩ =
        .ok ((handleRegister D B U st (some req1) env1).2.db, row)) ∧
    (∃ found, D.firstByEmail (handleRegister D B U st (some req1) env1).2.db
      (normalizeEmail U req1.Email) = some found) ∧
    handleRegister D B U (handleRegister D B U st (some req1) env1).2 (some req2) env2 =
      (.json ⟨false, "This garden already exists", "email"⟩ none,
        (handleRegister D B U st (some req1) env1).2) ∧
    (∀ later : State σ,
      (∃ found, D.firstByEmail later.db (normalizeEmail U req1.Email) = some found) →
      handleRegister D B U later (some req2) env2 =
        (.json ⟨false, "This garden already exists", "email"⟩ none, later)) := by
  obtain ⟨hashed, db, row, hemail, _, _, _, _, hc, hr⟩ :=
    handleRegister_success D B U st req1 env1 body1 hb hs
  obtain ⟨found, hfound⟩ := hD _ _ _ _ _ hc
  rw [hr]
  have h1 : validateEmail (trimSpace (toLower U req2.Email)) = "" := by
    have := hsame
    unfold normalizeEmail at this
    rw [this]
    exact hemail
  have h2 : validatePhone (trimSpace req2.Phone) = "" := by
    rw [validatePhone_trimSpace]; exact hphone
  have hlater : ∀ later : State σ,
      (∃ found, D.firstByEmail later.db (normalizeEmail U req1.Email) = some found) →
      handleRegister D B U later (some req2) env2 =
        (.json ⟨false, "This garden already exists", "email"⟩ none, later) := by
    intro later hfd
    obtain ⟨found2, hfound2⟩ := hfd
    have h3 : D.firstByEmail later.db (trimSpace (toLower U req2.Email)) = some found2 := by
      have := hsame
      unfold normalizeEmail at this
      rw [this]
      exact hfound2
    simp [handleRegister, h1, h2, hpass, h3]
  exact ⟨⟨hashed, row, hc⟩, ⟨found, hfound⟩, hlater _ ⟨found, hfound⟩, hlater⟩

/-- Witness for C3: "Rose@Crystal.Garden" is registered in an empty garden and stored as
"rose@crystal.garden"; a second registration under "  ROSE@crystal.GARDEN " is refused and
changes nothing. -/
theorem handleRegister_duplicate_rejected_witness :
    (handleRegister memStore saltedHasher asciiTables emptyGarden (some roseRequest)
      roseEnv).2.db.users.map (fun u => u.Email) = ["rose@crystal.garden"] ∧
    handleRegister memStore saltedHasher asciiTables
      (handleRegister memStore saltedHasher asciiTables emptyGarden (some roseRequest) roseEnv).2
      (some roseAgain) roseEnv =
      (.json ⟨false, "This garden already exists", "email"⟩ none,
        (handleRegister memStore saltedHasher asciiTables emptyGarden (some roseRequest)
          roseEnv).2) :=
  ⟨by decide,
    (handleRegister_duplicate_rejected memStore memStore_findsCreated saltedHasher asciiTables
      emptyGarden roseRequest roseEnv ⟨true, "Your crystal rose has bloomed 🌹", ""⟩ (by decide)
      (by decide) roseAgain roseEnv (by decide) (by decide) (by decide)).2.2.1⟩

/-! ### Email form -/

theorem mem_charClass (cs : List Char) (x : List Char) :
    x ∈ (charClass cs).matches' ↔ ∃ c ∈ cs, x = [c] := by
  induction cs with
  | nil => simp [charClass]
  | cons a t ih =>
    have hstep : charClass (a :: t) = RegularExpression.char a + charClass t := rfl
    rw [hstep, RegularExpression.matches'_add, Language.mem_add, ih, RegularExpression.matches'_char]
    constructor
    · rintro (h | ⟨c, hc, hx⟩)
      · exact ⟨a, List.mem_cons_self a t, h⟩
      · exact ⟨c, List.mem_cons_of_mem a hc, hx⟩
    · rintro ⟨c, hc, hx⟩
      rcases List.mem_cons.mp hc with h | h
      · left; rw [hx, h]; rfl
      · right; exact ⟨c, h, hx⟩

theorem mem_star_charClass (cs : List Char) (x : List Char) :
    x ∈ (charClass cs).star.matches' ↔ ∀ c ∈ x, c ∈ cs := by
  rw [RegularExpression.matches'_star, Language.mem_kstar]
  constructor
  · rintro ⟨L, hx, hL⟩ c hc
    rw [hx, List.mem_flatten] at hc
    obtain ⟨y, hy, hcy⟩ := hc
    obtain ⟨d, hd, hyd⟩ := (mem_charClass cs y).mp (hL y hy)
    rw [hyd, List.mem_singleton] at hcy
    rw [hcy]; exact hd
  · intro h
    refine ⟨x.map fun c => [c], ?_, ?_⟩
    · clear h
      induction x with
      | nil => rfl
      | cons a t ih => simpa [List.flatten] using ih
    · intro y hy
      obtain ⟨c, hc, hcy⟩ := List.mem_map.mp hy
      exact (mem_charClass cs y).mpr ⟨c, h c hc, hcy.symm⟩

theorem mem_rePlus_charClass (cs : List Char) (x : List Char) :
    x ∈ (rePlus (charClass cs)).matches' ↔ x ≠ [] ∧ ∀ c ∈ x, c ∈ cs := by
  have hdef : rePlus (charClass cs) = charClass cs * (charClass cs).star := rfl
  rw [hdef, RegularExpression.matches'_mul, Language.mem_mul]
  constructor
  · rintro ⟨a, ha, b, hb, hab⟩
    obtain ⟨c, hc, hac⟩ := (mem_charClass cs a).mp ha
    have hb2 := (mem_star_charClass cs b).mp hb
    subst hac
    subst hab
    refine ⟨by simp, ?_⟩
    intro d hd
    rcases List.mem_cons.mp hd with h | h
    · rw [h]; exact hc
    · exact hb2 d h
  · rintro ⟨hne, hall⟩
    cases x with
    | nil => exact absurd rfl hne
    | cons c t =>
      refine ⟨[c], (mem_charClass cs [c]).mpr ⟨c, hall c (List.mem_cons_self c t), rfl⟩, t,
        (mem_star_charClass cs t).mpr fun d hd => hall d (List.mem_cons_of_mem c hd), rfl⟩

theorem mem_reAtLeastTwo_charClass (cs : List Char) (x : List Char) :
    x ∈ (reAtLeastTwo (charClass cs)).matches' ↔ 2 ≤ x.length ∧ ∀ c ∈ x, c ∈ cs := by
  have hdef : reAtLeastTwo (charClass cs) = charClass cs * rePlus (charClass cs) := rfl
  rw [hdef, RegularExpression.matches'_mul, Language.mem_mul]
  constructor
  · rintro ⟨a, ha, b, hb, hab⟩
    obtain ⟨c, hc, hac⟩ := (mem_charClass cs a).mp ha
    obtain ⟨hbne, hb2⟩ := (mem_rePlus_charClass cs b).mp hb
    subst hac
    subst hab
    constructor
    · have : 0 < b.length := List.length_pos.mpr hbne
      simp only [List.singleton_append, List.length_cons]
      omega
    · intro d hd
      rcases List.mem_cons.mp hd with h | h
      · rw [h]; exact hc
      · exact hb2 d h
  · rintro ⟨hlen, hall⟩
    cases x with
    | nil => simp at hlen
    | cons c t =>
      have htne : t ≠ [] := by
        intro h
        rw [h] at hlen
        simp at hlen
      refine ⟨[c], (mem_charClass cs [c]).mpr ⟨c, hall c (List.mem_cons_self c t), rfl⟩, t,
        (mem_rePlus_charClass cs t).mpr ⟨htne, fun d hd => hall d (List.mem_cons_of_mem c hd)⟩,
        rfl⟩

theorem class_mem_iff (L : List Char) (P : Char → Bool)
    (h1 : ∀ d ∈ L, P d = true)
    (h2 : ∀ n, n < 128 → P (Char.ofNat n) = true → Char.ofNat n ∈ L)
    (h3 : ∀ c, P c = true → c.toNat < 128) (c : Char) : c ∈ L ↔ P c = true := by
  constructor
  · exact h1 c
  · intro h
    have := h2 c.toNat (h3 c h)
    rw [Char.ofNat_toNat] at this
    exact this h

theorem isLocalChar_ascii (c : Char) (h : isLocalChar c = true) : c.toNat < 128 := by
  simp only [isLocalChar, isAsciiLetter, isReDigit, Bool.or_eq_true, Bool.and_eq_true,
    decide_eq_true_eq, beq_iff_eq] at h
  have e1 : 'a'.toNat = 97 := by decide
  have e2 : 'z'.toNat = 122 := by decide
  have e3 : 'A'.toNat = 65 := by decide
  have e4 : 'Z'.toNat = 90 := by decide
  have e5 : '0'.toNat = 48 := by decide
  have e6 : '9'.toNat = 57 := by decide
  rw [e1, e2, e3, e4, e5, e6] at h
  rcases h with (((((h | h) | h) | h) | h) | h) | h
  · omega
  · omega
  · rw [h]; decide
  · rw [h]; decide
  · rw [h]; decide
  · rw [h]; decide
  · rw [h]; decide

theorem isDomainChar_local (c : Char) (h : isDomainChar c = true) : isLocalChar c = true := by
  simp only [isDomainChar, Bool.or_eq_true] at h
  simp only [isLocalChar, Bool.or_eq_true]
  rcases h with ((h | h) | h) | h
  · exact Or.inl (Or.inl (Or.inl (Or.inl (Or.inl (Or.inl h)))))
  · exact Or.inl (Or.inl (Or.inl (Or.inl (Or.inl (Or.inr h)))))
  · exact Or.inl (Or.inl (Or.inl (Or.inl (Or.inr h))))
  · exact Or.inr h

theorem isAsciiLetter_local (c : Char) (h : isAsciiLetter c = true) : isLocalChar c = true := by
  simp only [isLocalChar, Bool.or_eq_true]
  exact Or.inl (Or.inl (Or.inl (Or.inl (Or.inl (Or.inl h)))))

theorem mem_localChars (c : Char) : c ∈ localChars ↔ isLocalChar c = true :=
  class_mem_iff localChars isLocalChar (by decide) (by decide) isLocalChar_ascii c

theorem mem_domainChars (c : Char) : c ∈ domainChars ↔ isDomainChar c = true :=
  class_mem_iff domainChars isDomainChar (by decide) (by decide)
    (fun d h => isLocalChar_ascii d (isDomainChar_local d h)) c

theorem mem_letterChars (c : Char) : c ∈ letterChars ↔ isAsciiLetter c = true :=
  class_mem_iff letterChars isAsciiLetter (by decide) (by decide)
    (fun d h => isLocalChar_ascii d (isAsciiLetter_local d h)) c

theorem emailRegex_rmatch_iff (s : List Char) : emailRegex.rmatch s = true ↔ EmailForm s := by
  rw [RegularExpression.rmatch_iff_matches']
  unfold emailRegex EmailForm
  simp only [RegularExpression.matches'_mul, Language.mem_mul, RegularExpression.matches'_char, mem_rePlus_charClass,
    mem_reAtLeastTwo_charClass, mem_localChars, mem_domainChars, mem_letterChars]
  constructor
  · rintro ⟨loc, ⟨hl1, hl2⟩, r1, ⟨at1, hat, r2, ⟨dom, ⟨hd1, hd2⟩, r3, ⟨dot, hdot, tld,
      ⟨ht1, ht2⟩, h3⟩, h2⟩, h1⟩, h0⟩
    have hat2 : at1 = ['@'] := hat
    have hdot2 : dot = ['.'] := hdot
    subst hat2 hdot2
    refine ⟨loc, dom, tld, ?_, hl1, hl2, hd1, hd2, ht1, ht2⟩
    rw [← h0, ← h1, ← h2, ← h3]
    simp
  · rintro ⟨loc, dom, tld, hs, hl1, hl2, hd1, hd2, ht1, ht2⟩
    exact ⟨loc, ⟨hl1, hl2⟩, '@' :: (dom ++ '.' :: tld), ⟨['@'], rfl, dom ++ '.' :: tld,
      ⟨dom, ⟨hd1, hd2⟩, '.' :: tld, ⟨['.'], rfl, tld, ⟨ht1, ht2⟩, rfl⟩, rfl⟩, rfl⟩, hs.symm⟩

theorem isLocalChar_not_space (c : Char) (h : isLocalChar c = true) : isSpace c = false := by
  have hall : ∀ n, n < 128 → isLocalChar (Char.ofNat n) = true →
      isSpace (Char.ofNat n) = false := by decide
  have := hall c.toNat (isLocalChar_ascii c h)
  rw [Char.ofNat_toNat] at this
  exact this h

theorem trim_eq_self (l : List Char) (hhead : ∀ c, l.head? = some c → isSpace c = false)
    (hlast : ∀ c, l.getLast? = some c → isSpace c = false) : trimRight (trimLeft l) = l := by
  have hleft : trimLeft l = l := by
    cases l with
    | nil => rfl
    | cons a m =>
      have ha := hhead a rfl
      simp [trimLeft, List.dropWhile_cons, ha]
  rw [hleft]
  change List.rdropWhile isSpace l = l
  rw [List.rdropWhile_eq_self_iff]
  intro hne
  have := hlast (l.getLast hne) (List.getLast?_eq_getLast l hne)
  rw [this]
  exact Bool.false_ne_true

theorem trim_sublist (l : List Char) : (trimRight (trimLeft l)).Sublist l :=
  ((List.rdropWhile_prefix isSpace (trimLeft l)).sublist).trans (List.dropWhile_sublist isSpace)

theorem emailForm_trim (l : List Char) (h : EmailForm l) : trimRight (trimLeft l) = l := by
  obtain ⟨loc, dom, tld, hs, hl1, hl2, _, _, ht1, ht2⟩ := h
  apply trim_eq_self
  · intro c hc
    cases loc with
    | nil => exact absurd rfl hl1
    | cons a m =>
      rw [hs] at hc
      simp only [List.cons_append, List.head?_cons, Option.some.injEq] at hc
      rw [← hc]
      exact isLocalChar_not_space a (hl2 a (List.mem_cons_self a m))
  · intro c hc
    have htne : tld ≠ [] := by
      intro h0
      rw [h0] at ht1
      simp at ht1
    have hc2 : tld.getLast? = some c := by
      rw [hs] at hc
      rw [show loc ++ '@' :: (dom ++ '.' :: tld) = (loc ++ '@' :: (dom ++ ['.'])) ++ tld by simp]
        at hc
      rw [List.getLast?_append_of_ne_nil _ htne] at hc
      exact hc
    have hmem : c ∈ tld := List.mem_of_getLast?_eq_some hc2
    exact isLocalChar_not_space c (isAsciiLetter_local c (ht2 c hmem))

theorem emailForm_has_at (l : List Char) (h : EmailForm l) : '@' ∈ l := by
  obtain ⟨loc, dom, tld, hs, _⟩ := h
  rw [hs]
  simp

theorem emailForm_endsInTld (l : List Char) (h : EmailForm l) : EndsInTld l := by
  obtain ⟨loc, dom, tld, hs, _, _, _, _, ht1, ht2⟩ := h
  exact ⟨loc ++ '@' :: dom, tld, by rw [hs]; simp, ht1, ht2⟩

theorem endsInTld_of_trim (l : List Char) (hlast : ∀ c, l.getLast? = some c → isSpace c = false)
    (h : EndsInTld (trimRight (trimLeft l))) : EndsInTld l := by
  have hright : trimRight (trimLeft l) = trimLeft l := by
    change List.rdropWhile isSpace (trimLeft l) = trimLeft l
    rw [List.rdropWhile_eq_self_iff]
    intro hne
    obtain ⟨t, ht⟩ := List.dropWhile_suffix isSpace (l := l)
    have hl : l.getLast? = some ((trimLeft l).getLast hne) := by
      have hl2 : (t ++ trimLeft l).getLast? = some ((trimLeft l).getLast hne) := by
        rw [List.getLast?_append_of_ne_nil _ hne]
        exact List.getLast?_eq_getLast _ hne
      have hcat : t ++ trimLeft l = l := ht
      rw [hcat] at hl2
      exact hl2
    rw [hlast _ hl]
    exact Bool.false_ne_true
  rw [hright] at h
  obtain ⟨pre, tld, hs, ht1, ht2⟩ := h
  obtain ⟨t, ht⟩ := List.dropWhile_suffix isSpace (l := l)
  refine ⟨t ++ pre, tld, ?_, ht1, ht2⟩
  rw [← ht]
  change t ++ trimLeft l = _
  rw [hs]
  simp

theorem validateEmail_eq_empty_iff (e : String) :
    validateEmail e = "" ↔ EmailForm (trimSpace e).data := by
  unfold validateEmail
  by_cases h : trimSpace e = ""
  · simp only [h, if_true]
    constructor
    · intro h0
      exact absurd h0 (by decide)
    · intro hf
      have := emailForm_has_at _ hf
      simp at this
  · simp only [h, if_false]
    by_cases hm : emailRegex.rmatch (trimSpace e).data = true
    · simp only [hm, Bool.not_true, Bool.false_eq_true, if_false, true_iff]
      exact (emailRegex_rmatch_iff _).mp hm
    · have hnf : ¬ EmailForm (trimSpace e).data := fun hf => hm ((emailRegex_rmatch_iff _).mpr hf)
      simp only [hm, Bool.not_eq_true] at hnf ⊢
      simp only [Bool.not_eq_true] at hm
      simp only [hm, Bool.not_false, if_true]
      constructor
      · intro h0
        exact absurd h0 (by decide)
      · intro hf
        exact absurd hf hnf

/-- C6, as stated, fails: the string "a@b.co " with a trailing blank does not end in a dot
followed by two or more letters, yet `validateEmail` trims it and accepts it. -/
theorem validateEmail_accepts_trailing_blank :
    validateEmail "a@b.co " = "" ∧ ¬ EndsInTld "a@b.co ".data := by
  refine ⟨by decide, ?_⟩
  rintro ⟨pre, tld, hs, hlen, hall⟩
  have hne : tld ≠ [] := by
    intro h0
    rw [h0] at hlen
    simp at hlen
  have hlast : ("a@b.co ".data).getLast? = tld.getLast? := by
    rw [hs, show pre ++ '.' :: tld = (pre ++ ['.']) ++ tld by simp,
      List.getLast?_append_of_ne_nil _ hne]
  have hblank : ("a@b.co ".data).getLast? = some ' ' := by decide
  rw [hblank] at hlast
  have hmem : ' ' ∈ tld := List.mem_of_getLast?_eq_some hlast.symm
  have := hall ' ' hmem
  exact absurd this (by decide)

/-- C6, amended. `validateEmail` returns the empty string (valid) exactly when the string,
after trimming, has the form local@domain.tld, with a local part of one or more letters,
digits and . _ % + -, a domain of one or more letters, digits, dots and hyphens, and a
top-level segment of two or more letters. So every string of that form is accepted, and
a string is rejected when it contains no at sign, or when, after trimming, it does not
end in a dot followed by two or more letters (for a string that does not end in white
space this is its own ending); the message is "Email is required" when the string trims
to empty and "Please enter a valid email" otherwise. -/
theorem validateEmail_accepts_exactly_form (e : String) :
    (validateEmail e = "" ↔ EmailForm (trimSpace e).data) ∧
    (EmailForm e.data → validateEmail e = "") ∧
    (trimSpace e = "" → validateEmail e = "Email is required") ∧
    (trimSpace e ≠ "" → ¬ EmailForm (trimSpace e).data →
      validateEmail e = "Please enter a valid email") ∧
    ('@' ∉ e.data → validateEmail e =
      if trimSpace e = "" then "Email is required" else "Please enter a valid email") ∧
    (¬ EndsInTld (trimSpace e).data → validateEmail e =
      if trimSpace e = "" then "Email is required" else "Please enter a valid email") ∧
    ((∀ c, e.data.getLast? = some c → isSpace c = false) → ¬ EndsInTld e.data →
      validateEmail e =
        if trimSpace e = "" then "Email is required" else "Please enter a valid email") ∧
    validateEmail "rose@crystal.garden" = "" ∧
    validateEmail "rose.crystal.garden" = "Please enter a valid email" ∧
    validateEmail "rose@crystal.g" = "Please enter a valid email" ∧
    validateEmail "   " = "Email is required" := by
  have hempty : trimSpace e = "" → validateEmail e = "Email is required" := by
    intro h
    simp [validateEmail, h]
  have hbad : trimSpace e ≠ "" → ¬ EmailForm (trimSpace e).data →
      validateEmail e = "Please enter a valid email" := by
    intro h hnf
    have hm : emailRegex.rmatch (trimSpace e).data = false := by
      rw [Bool.eq_false_iff]
      exact fun hm => hnf ((emailRegex_rmatch_iff _).mp hm)
    simp [validateEmail, h, hm]
  have hrej : ¬ EmailForm (trimSpace e).data → validateEmail e =
      if trimSpace e = "" then "Email is required" else "Please enter a valid email" := by
    intro hnf
    by_cases h : trimSpace e = ""
    · rw [if_pos h]; exact hempty h
    · rw [if_neg h]; exact hbad h hnf
  refine ⟨validateEmail_eq_empty_iff e, ?_, hempty, hbad, ?_, ?_, ?_, by decide, by decide,
    by decide, by decide⟩
  · intro hf
    rw [validateEmail_eq_empty_iff]
    have : (trimSpace e).data = e.data := emailForm_trim e.data hf
    rw [this]
    exact hf
  · intro hat
    apply hrej
    intro hf
    exact hat ((trim_sublist e.data).subset (emailForm_has_at _ hf))
  · intro hend
    exact hrej fun hf => hend (emailForm_endsInTld _ hf)
  · intro hlast hend
    exact hrej fun hf => hend (endsInTld_of_trim e.data hlast (emailForm_endsInTld _ hf))

/-- Witness for C7: logging out in the state the service starts in changes nothing, and
the token issued to rose resolves to her id before the logout and to absent after it. -/
theorem handleLogout_exact_removal_witness :
    (handleLogout twoGardens "20240315143025.123456789").2 = twoGardens ∧
    roseLoggedIn.sessions "20240315143025.123456789" = some 1 ∧
    (handleLogout roseLoggedIn "20240315143025.123456789").2.sessions
      "20240315143025.123456789" = none :=
  ⟨(handleLogout_exact_removal memStore saltedHasher asciiTables twoGardens
      "20240315143025.123456789").2.2.2.2.2.1 (Or.inr rfl),
    by decide,
    ((handleLogout_exact_removal memStore saltedHasher asciiTables roseLoggedIn
      "20240315143025.123456789").2.2.1 (Reachable.login _ _ (Reachable.start _))).2⟩

end CrystalRose
